import Mathlib

/-!
Verification of the teaching micro-benchmarks (db2-ss24).

Shallow embedding of the C programs under `material/`:

* `Chapter07/duffs-device.c` : `send`, `duff_send`
* `Chapter07/unroll.c` : `BATcalcsub`, `BATcalcsub_unrolled`
* `Chapter08/branch-prediction.c`, `Chapter08/mixed-mode-conjunction.c` : selection loops
* `Chapter06/prefetch/prefetch.c` : `bounce`, `prefetching_bounce`
* `Chapter02/mmap.c` : `scan_tail`

Conventions.  A C `int` value is a mathematical integer; where an arithmetic
result can leave the 32-bit range it is wrapped by `wrap32`.  A C array is a
function from the (natural number) index to the stored value, a pointer into
an array is the index it points at.  Distinct arrays are distinct objects
(the programs allocate every array with its own `malloc`).
-/

namespace C

/-- Largest value of a 32-bit `int`. -/
def INT_MAX : Int := 2147483647

/-- Smallest value of a 32-bit `int`. -/
def INT_MIN : Int := -2147483648

/-- Two-complement wrap of a mathematical integer into the 32-bit `int` range. -/
def wrap32 (x : Int) : Int := (x + 2147483648) % 4294967296 - 2147483648

/-- The `<stdlib.h>` macro `RAND_MAX`, with the value `2^31 - 1` it has on
the platforms the programs were written for (glibc, macOS). -/
def RAND_MAX : Int := 2147483647

/-- Value of a C comparison or logical result: `1` for true and `0` for false. -/
def b2n (b : Bool) : Nat := if b then 1 else 0

/-- The loop `for (int i = i0; i < size; i += 1) body`, entered with `i = i0`;
`body i` is the effect of the loop body at counter value `i` (the bodies
modelled with it assign neither `i` nor `size`).  The counter never exceeds
`size`, an `int` value, so `i += 1` is exact. -/
def for_loop {σ : Type} (size : Nat) (body : Nat → σ → σ) (i : Nat) (s : σ) : σ :=
  if i < size then for_loop size body (i + 1) (body i s) else s
termination_by size - i

/-- The selection vector `sv` and the output counter `out` of the selection
loops.  `out` starts at 0 and grows by at most 1 per iteration of a loop over
an `int` range, so it is exact. -/
structure SelState where
  sv : Nat → Int
  out : Nat

end C

namespace DuffsDevice

open C

/-- The two arrays and the two running pointers of `send` and `duff_send`:
`toPos` is how far `to` has advanced, `fromPos` how far `from` has. -/
structure CopyState where
  toBuf : Nat → Int
  fromBuf : Nat → Int
  toPos : Nat
  fromPos : Nat

/-- The statement `*to++ = *from++;`. -/
def copy_one (s : CopyState) : CopyState :=
  { toBuf := Function.update s.toBuf s.toPos (s.fromBuf s.fromPos)
    fromBuf := s.fromBuf
    toPos := s.toPos + 1
    fromPos := s.fromPos + 1 }

/-- A run of `k` consecutive statements `*to++ = *from++;`. -/
def copies : Nat → CopyState → CopyState
  | 0, s => s
  | k + 1, s => copies k (copy_one s)

/-- The loop `do { eight times *to++ = *from++; } while (--n > 0);`.
In both callers `n` is a quotient by 8 of a 32-bit value, so `--n` stays far
from the 32-bit limits and is the exact `n - 1`. -/
def unrolled_loop (s : CopyState) (n : Int) : CopyState :=
  let s1 := copies 8 s
  if 0 < n - 1 then unrolled_loop s1 (n - 1) else s1
termination_by n.toNat
decreasing_by omega

/-- The function `send(to, from, count)`: `n = count / 8` (C division, which
truncates), then the eight-fold do-while loop. -/
def send (toArr fromArr : Nat → Int) (count : Int) : CopyState :=
  unrolled_loop ⟨toArr, fromArr, 0, 0⟩ (Int.tdiv count 8)

/-- Entry of the `switch` of `duff_send` at `case k` for `1 ≤ k ≤ 7`: the last
`k` statements of the body, the test `--n > 0`, then the loop from its top. -/
def duff_entry (k : Nat) (s : CopyState) (n : Int) : CopyState :=
  let s1 := copies k s
  if 0 < n - 1 then unrolled_loop s1 (n - 1) else s1

/-- The function `duff_send(to, from, count)`: `n = (count + 7) / 8` in 32-bit
arithmetic, then `switch (count % 8)` into the do-while loop.  `%` is the C
remainder (sign of the dividend); a remainder that matches no `case` label
(a negative one) skips the whole `switch`. -/
def duff_send (toArr fromArr : Nat → Int) (count : Int) : CopyState :=
  let n := Int.tdiv (wrap32 (count + 7)) 8
  let s0 : CopyState := ⟨toArr, fromArr, 0, 0⟩
  let r := Int.tmod count 8
  if r = 0 then unrolled_loop s0 n
  else if r = 7 then duff_entry 7 s0 n
  else if r = 6 then duff_entry 6 s0 n
  else if r = 5 then duff_entry 5 s0 n
  else if r = 4 then duff_entry 4 s0 n
  else if r = 3 then duff_entry 3 s0 n
  else if r = 2 then duff_entry 2 s0 n
  else if r = 1 then duff_entry 1 s0 n
  else s0

/-- The scalar reference of the specification: a copy of `n` elements, one
element per iteration (`for (i = 0; i < n; i++) *to++ = *from++;`). -/
def scalar_copy (toArr fromArr : Nat → Int) (n : Nat) : CopyState :=
  copies n ⟨toArr, fromArr, 0, 0⟩

/-- The epilogue loop given in the comment at the end of `send`:
`while (n-- > 0) { *to++ = *from++; }` (the test reads `n`, then `n` is
decremented; the value `n` is left with after the last test is not used). -/
def epilogue_loop (s : CopyState) (n : Int) : CopyState :=
  if 0 < n then epilogue_loop (copy_one s) (n - 1) else s
termination_by n.toNat
decreasing_by omega

/-- The function `send` corrected as its comment prescribes: the eight-fold
do-while loop with `n = count / 8`, then `n = count % 8;` and the epilogue
loop. -/
def send_corrected (toArr fromArr : Nat → Int) (count : Int) : CopyState :=
  epilogue_loop (unrolled_loop ⟨toArr, fromArr, 0, 0⟩ (Int.tdiv count 8)) (Int.tmod count 8)

end DuffsDevice

namespace Unroll

open C

/-- The array length `SIZE` of `unroll.c`. -/
def SIZE : Nat := 256 * 1024 * 1024

/-- The three arrays of `BATcalcsub`, and a log `idx` of every array subscript
evaluated so far (most recent first); the log is not program data, it records
which elements were read or written. -/
structure BatState where
  left : Nat → Int
  right : Nat → Int
  result : Nat → Int
  idx : List Nat

/-- The statement `result[k] = left[i] - right[j];` on 32-bit ints. -/
def sub_stmt (k i j : Nat) (s : BatState) : BatState :=
  { left := s.left
    right := s.right
    result := Function.update s.result k (wrap32 (s.left i - s.right j))
    idx := k :: i :: j :: s.idx }

/-- The loop `for (...; k < size; i += 1, j += 1, k += 1) result[k] = left[i] - right[j];`
entered with the given `i`, `j`, `k`.  The counters stay at or below `size`,
which is an `int`, so they are exact. -/
def BATcalcsub_loop (size : Nat) (i j k : Nat) (s : BatState) : BatState :=
  if k < size then BATcalcsub_loop size (i + 1) (j + 1) (k + 1) (sub_stmt k i j s) else s
termination_by size - k

/-- The loop of `BATcalcsub_unrolled`: four statements per iteration, counters
advanced by 4. -/
def BATcalcsub_unrolled_loop (size : Nat) (i j k : Nat) (s : BatState) : BatState :=
  if k < size then
    let s1 := sub_stmt k i j s
    let s2 := sub_stmt (k + 1) (i + 1) (j + 1) s1
    let s3 := sub_stmt (k + 2) (i + 2) (j + 2) s2
    let s4 := sub_stmt (k + 3) (i + 3) (j + 3) s3
    BATcalcsub_unrolled_loop size (i + 4) (j + 4) (k + 4) s4
  else s
termination_by size - k

/-- The function `BATcalcsub` with the macro `SIZE` as a parameter. -/
def BATcalcsub_sized (size : Nat) (left right result : Nat → Int) : BatState :=
  BATcalcsub_loop size 0 0 0 ⟨left, right, result, []⟩

/-- The function `BATcalcsub_unrolled` with the macro `SIZE` as a parameter. -/
def BATcalcsub_unrolled_sized (size : Nat) (left right result : Nat → Int) : BatState :=
  BATcalcsub_unrolled_loop size 0 0 0 ⟨left, right, result, []⟩

/-- The function `BATcalcsub(left, right, result)`. -/
def BATcalcsub (left right result : Nat → Int) : BatState :=
  BATcalcsub_sized SIZE left right result

/-- The function `BATcalcsub_unrolled(left, right, result)`. -/
def BATcalcsub_unrolled (left right result : Nat → Int) : BatState :=
  BATcalcsub_unrolled_sized SIZE left right result

end Unroll

namespace BranchPrediction

open C

/-- The column length `SIZE` of `branch-prediction.c`. -/
def SIZE : Nat := 32 * 1024 * 1024

/-- Body of the branch-less selection loop (Experiment (2)):
`sv[out] = i; out += (col[i] < v);`. -/
def branchless_body (col : Nat → Int) (v : Int) (i : Nat) (s : SelState) : SelState :=
  { sv := Function.update s.sv s.out (i : Int)
    out := s.out + b2n (decide (col i < v)) }

/-- Body of the branch-based selection loop (the commented-out variant):
`if (col[i] < v) { sv[out] = i; out += 1; }`. -/
def branch_body (col : Nat → Int) (v : Int) (i : Nat) (s : SelState) : SelState :=
  if col i < v then
    { sv := Function.update s.sv s.out (i : Int)
      out := s.out + 1 }
  else s

/-- The branch-less selection over a column of `size` elements:
`out = 0; for (int i = 0; i < size; i += 1) { sv[out] = i; out += (col[i] < v); }`,
started on the selection vector `sv`. -/
def select_branchless (size : Nat) (col : Nat → Int) (v : Int) (sv : Nat → Int) : SelState :=
  for_loop size (branchless_body col v) 0 ⟨sv, 0⟩

/-- The branch-based selection over a column of `size` elements:
`out = 0; for (int i = 0; i < size; i += 1) { if (col[i] < v) { sv[out] = i; out += 1; } }`. -/
def select_branch (size : Nat) (col : Nat → Int) (v : Int) (sv : Nat → Int) : SelState :=
  for_loop size (branch_body col v) 0 ⟨sv, 0⟩

/-- Specification side: the positions `i < n` with `col[i] < v`, in ascending
(scan) order. -/
def qualifying (col : Nat → Int) (v : Int) (n : Nat) : List Nat :=
  (List.range n).filter (fun i => decide (col i < v))

/-- The column `[3,1,4,1,5,9,2,6]` of the end-to-end scenario. -/
def scenario_col : Nat → Int := fun i => [3, 1, 4, 1, 5, 9, 2, 6].getD i 0

/-- Exact value of the reported `((float)out / SIZE) * 100.0`, before rounding
to `float`. -/
def selectivity (out size : Nat) : ℚ := ((out : ℚ) / (size : ℚ)) * 100

/-- The number of sweep steps `STEPS`. -/
def STEPS : Int := 11

/-- The threshold of sweep step `step`: `int v = step * (RAND_MAX / (STEPS - 1));`
on 32-bit ints, `/` being the truncating C division; `rand_max` is the value
of the library macro `RAND_MAX`. -/
def threshold (rand_max step : Int) : Int :=
  wrap32 (step * Int.tdiv rand_max (STEPS - 1))

/-- The comparison function `cmp`: `return *((int*) a) - *((int*) b);` on
32-bit ints, given the two ints pointed at. -/
def cmp (a b : Int) : Int := wrap32 (a - b)

end BranchPrediction

namespace MixedMode

open C

/-- The column length `SIZE` of `mixed-mode-conjunction.c`. -/
def SIZE : Nat := 32 * 1024 * 1024

/-- Alternative A, loop body:
`sv[out] = col[i]; out += ((col[i] < v) & (col[i] % 2 == 0));`
with `&` the bitwise and of the two 0/1 values and `%` the C remainder. -/
def body_A (col : Nat → Int) (v : Int) (i : Nat) (s : SelState) : SelState :=
  { sv := Function.update s.sv s.out (col i)
    out := s.out + Nat.land (b2n (decide (col i < v))) (b2n (decide (Int.tmod (col i) 2 = 0))) }

/-- Alternative B, loop body:
`if (col[i] < v) { sv[out] = col[i]; out += (col[i] % 2 == 0); }`. -/
def body_B (col : Nat → Int) (v : Int) (i : Nat) (s : SelState) : SelState :=
  if col i < v then
    { sv := Function.update s.sv s.out (col i)
      out := s.out + b2n (decide (Int.tmod (col i) 2 = 0)) }
  else s

/-- Alternative C, loop body:
`if (col[i] % 2 == 0) { sv[out] = col[i]; out += (col[i] < v); }`. -/
def body_C (col : Nat → Int) (v : Int) (i : Nat) (s : SelState) : SelState :=
  if Int.tmod (col i) 2 = 0 then
    { sv := Function.update s.sv s.out (col i)
      out := s.out + b2n (decide (col i < v)) }
  else s

/-- Specification side: the values `col[i]`, `i < n`, that are both `< v` and
even, in scan order. -/
def qualifying_values (col : Nat → Int) (v : Int) (n : Nat) : List Int :=
  ((List.range n).map col).filter (fun x => decide (x < v) && decide (x % 2 = 0))

/-- Alternative A: `out = 0;` then the loop over `i = 0 .. size - 1`. -/
def alternative_A (size : Nat) (col : Nat → Int) (v : Int) (sv : Nat → Int) : SelState :=
  for_loop size (body_A col v) 0 ⟨sv, 0⟩

/-- Alternative B: `out = 0;` then the loop over `i = 0 .. size - 1`. -/
def alternative_B (size : Nat) (col : Nat → Int) (v : Int) (sv : Nat → Int) : SelState :=
  for_loop size (body_B col v) 0 ⟨sv, 0⟩

/-- Alternative C: `out = 0;` then the loop over `i = 0 .. size - 1`. -/
def alternative_C (size : Nat) (col : Nat → Int) (v : Int) (sv : Nat → Int) : SelState :=
  for_loop size (body_C col v) 0 ⟨sv, 0⟩

/-- A sample column with negative, odd and even values. -/
def sample_col : Nat → Int := fun i => [3, -2, 4, 1, 8, 9, 2, -7].getD i 0

/-- The number of sweep steps `STEPS`. -/
def STEPS : Int := 11

/-- The threshold of sweep step `step`: `int v = step * (RAND_MAX / (STEPS - 1));`
on 32-bit ints, as in `branch-prediction.c`. -/
def threshold (rand_max step : Int) : Int :=
  wrap32 (step * Int.tdiv rand_max (STEPS - 1))

/-- The comparison function `cmp`: `return *((int*) a) - *((int*) b);` on
32-bit ints, given the two ints pointed at. -/
def cmp (a b : Int) : Int := wrap32 (a - b)

end MixedMode

namespace Prefetch

open C

/-- The vector length `SIZE` of `prefetch.c`. -/
def SIZE : Nat := 32 * 1024 * 1024

/-- The prefetch distance `LOOKAHEAD` of `prefetch.c`. -/
def LOOKAHEAD : Nat := 128

/-- The pseudo-random generator of the C library over a state type `σ`:
`srand seed` is the state that `srand(seed)` installs, whatever the state
before; `rand g` is the value in `0..RAND_MAX` that `rand()` returns in state
`g`, with the state it leaves behind. -/
structure Rng (σ : Type) where
  srand : Nat → σ
  rand : σ → Nat × σ

/-- State of `bounce`: the running `sum`, the generator state, and a log
`derefs` of the indices `vector[...]` was read at, in program order (the log is
not program data). -/
structure ScanState (σ : Type) where
  sum : Int
  gen : σ
  derefs : List Nat

/-- Body of the loop of `bounce`: `sum = sum + vector[rand() % SIZE];` on
32-bit ints. -/
def bounce_body {σ : Type} (R : Rng σ) (size : Nat) (vector : Nat → Int) (_i : Nat)
    (s : ScanState σ) : ScanState σ :=
  let r := R.rand s.gen
  { sum := wrap32 (s.sum + vector (r.1 % size))
    gen := r.2
    derefs := s.derefs ++ [r.1 % size] }

/-- The function `bounce(vector)` with the macro `SIZE` as a parameter, entered
with the generator in state `_entry`: `sum = 0; srand(42);` then the loop. -/
def bounce_sized {σ : Type} (R : Rng σ) (size : Nat) (vector : Nat → Int) (_entry : σ) :
    ScanState σ :=
  for_loop size (bounce_body R size vector) 0 ⟨0, R.srand 42, []⟩

/-- State of `prefetching_bounce`: the running `sum`, the ring buffer
`locations`, the ring position `l`, the generator state, and two logs that are
not program data: `derefs`, the indices `vector[...]` was read at, and
`prefetched`, the indices whose address went to `__builtin_prefetch`, both in
program order. -/
structure PfState (σ : Type) where
  sum : Int
  locations : Nat → Nat
  l : Nat
  gen : σ
  derefs : List Nat
  prefetched : List Nat

/-- Body of the priming loop: `locations[l] = rand() % SIZE;` (this loop has
its own counter `l`). -/
def prime_body {σ : Type} (R : Rng σ) (size : Nat) (l : Nat) (s : PfState σ) : PfState σ :=
  let r := R.rand s.gen
  { sum := s.sum
    locations := Function.update s.locations l (r.1 % size)
    l := s.l
    gen := r.2
    derefs := s.derefs
    prefetched := s.prefetched }

/-- Body of the main loop of `prefetching_bounce`:
`sum = sum + vector[locations[l]]; locations[l] = rand() % SIZE;
__builtin_prefetch(&vector[locations[l]]); l = (l + 1) % LOOKAHEAD;`.
The prefetch request changes no program data. -/
def prefetch_body {σ : Type} (R : Rng σ) (size lookahead : Nat) (vector : Nat → Int) (_i : Nat)
    (s : PfState σ) : PfState σ :=
  let r := R.rand s.gen
  let locations1 := Function.update s.locations s.l (r.1 % size)
  { sum := wrap32 (s.sum + vector (s.locations s.l))
    locations := locations1
    l := (s.l + 1) % lookahead
    gen := r.2
    derefs := s.derefs ++ [s.locations s.l]
    prefetched := s.prefetched ++ [locations1 s.l] }

/-- State of `prefetching_bounce` when the main loop is entered: `sum = 0`,
`srand(42)`, the priming loop over `l = 0 .. LOOKAHEAD - 1`, and the main
loop's `l = 0`.  `loc0` is the indeterminate initial content of the local array
`locations`. -/
def primed {σ : Type} (R : Rng σ) (size lookahead : Nat) (loc0 : Nat → Nat) : PfState σ :=
  for_loop lookahead (prime_body R size) 0 ⟨0, loc0, 0, R.srand 42, [], []⟩

/-- State of `prefetching_bounce` at the end of main-loop iteration `i - 1`,
that is after the first `i` iterations. -/
def state_after {σ : Type} (R : Rng σ) (size lookahead : Nat) (vector : Nat → Int)
    (loc0 : Nat → Nat) (i : Nat) : PfState σ :=
  for_loop i (prefetch_body R size lookahead vector) 0 (primed R size lookahead loc0)

/-- The function `prefetching_bounce(vector)` with the macros `SIZE` and
`LOOKAHEAD` as parameters, entered with the generator in state `_entry`. -/
def prefetching_bounce_sized {σ : Type} (R : Rng σ) (size lookahead : Nat)
    (vector : Nat → Int) (loc0 : Nat → Nat) (_entry : σ) : PfState σ :=
  for_loop size (prefetch_body R size lookahead vector) 0 (primed R size lookahead loc0)

/-- The function `bounce(vector)`. -/
def bounce {σ : Type} (R : Rng σ) (vector : Nat → Int) (entry : σ) : ScanState σ :=
  bounce_sized R SIZE vector entry

/-- The function `prefetching_bounce(vector)`. -/
def prefetching_bounce {σ : Type} (R : Rng σ) (vector : Nat → Int) (loc0 : Nat → Nat)
    (entry : σ) : PfState σ :=
  prefetching_bounce_sized R SIZE LOOKAHEAD vector loc0 entry

/-- Generator state after `srand(42)` and `k` calls of `rand()`. -/
def gen_after {σ : Type} (R : Rng σ) : Nat → σ
  | 0 => R.srand 42
  | k + 1 => (R.rand (gen_after R k)).2

/-- The generated index `r_k`: the value of the `k`-th call (counted from 0) of
`rand() % size` after `srand(42)`. -/
def r_seq {σ : Type} (R : Rng σ) (size : Nat) (k : Nat) : Nat :=
  (R.rand (gen_after R k)).1 % size

/-- The value of `sum` after adding `vector[i]` for the indices `i` of a list,
in list order, on 32-bit ints. -/
def sum_over (vector : Nat → Int) (idxs : List Nat) : Int :=
  idxs.foldl (fun acc i => wrap32 (acc + vector i)) 0

/-- A sample generator: a linear congruential generator modulo `2^31`. -/
def lcg : Rng Nat :=
  { srand := fun seed => seed
    rand := fun g => ((g * 1103515245 + 12345) % 2147483648, (g * 1103515245 + 12345) % 2147483648) }

end Prefetch

namespace Mmap

open C

/-- Largest value of the signed 64-bit type `off_t`. -/
def OFF_MAX : Int := 9223372036854775807

/-- The loop bound `size / sizeof(int32_t)` of `scan_tail`: `sizeof` has the
unsigned 64-bit type `size_t`, so `size` is converted to it (reduced modulo
`2^64`) and divided by 4; the comparison `i < ...` is made in that type. -/
def row_count (size : Int) : Nat := ((size % 18446744073709551616) / 4).toNat

/-- The function `scan_tail(tail, size)`:
`for (off_t i = 0; i < size / sizeof(int32_t); i += 1) printf("row #%lld: a = %d", i, tail[i]);`.
`tail` is the mapped region read as an array of `int32_t`; the result is the
list of printed rows, each the row number `i` and the value `tail[i]`, in
output order. -/
def scan_tail (tail : Nat → Int) (size : Int) : List (Nat × Int) :=
  for_loop (row_count size) (fun i printed => printed ++ [(i, tail i)]) 0 []

/-- A sample mapped region of four `int32_t` values. -/
def sample_tail : Nat → Int := fun i => [10, 20, 30, 40].getD i 0

end Mmap

/-! ## Theorems -/

namespace C

theorem for_loop_unfold {σ : Type} (size : Nat) (body : Nat → σ → σ) (i : Nat) (s : σ) :
    for_loop size body i s = if i < size then for_loop size body (i + 1) (body i s) else s := by
  rw [for_loop]

theorem for_loop_done {σ : Type} (size : Nat) (body : Nat → σ → σ) (i : Nat) (s : σ)
    (h : size ≤ i) : for_loop size body i s = s := by
  rw [for_loop_unfold, if_neg (by omega)]

/-- A loop to `size + 1` is the loop to `size` followed by one more body. -/
theorem for_loop_step {σ : Type} (body : Nat → σ → σ) (size d : Nat) (i : Nat) (s : σ)
    (hd : size - i ≤ d) (hi : i ≤ size) :
    for_loop (size + 1) body i s = body size (for_loop size body i s) := by
  induction d generalizing i s with
  | zero =>
    have e : i = size := by omega
    subst e
    rw [for_loop_unfold (i + 1) body i s, if_pos (by omega),
      for_loop_done (i + 1) body (i + 1) _ (by omega), for_loop_done i body i s (by omega)]
  | succ d ih =>
    by_cases h : i < size
    · rw [for_loop_unfold (size + 1) body i s, if_pos (by omega),
        ih (i + 1) (body i s) (by omega) (by omega),
        for_loop_unfold size body i s, if_pos h]
    · have e : i = size := by omega
      subst e
      rw [for_loop_unfold (i + 1) body i s, if_pos (by omega),
        for_loop_done (i + 1) body (i + 1) _ (by omega), for_loop_done i body i s (by omega)]

/-- A run of the loop passes through the state reached after its first `i`
iterations. -/
theorem for_loop_split {σ : Type} (size : Nat) (body : Nat → σ → σ) (s : σ) (i : Nat)
    (hi : i ≤ size) :
    for_loop size body i (for_loop i body 0 s) = for_loop size body 0 s := by
  induction i with
  | zero => rw [for_loop_done 0 body 0 s (by omega)]
  | succ i ih =>
    rw [for_loop_step body i i 0 s (by omega) (by omega), ← ih (by omega),
      for_loop_unfold size body i (for_loop i body 0 s), if_pos (by omega)]

theorem getElem?_map_range {α : Type} (f : Nat → α) (n k : Nat) (h : k < n) :
    ((List.range n).map f)[k]? = some (f k) := by
  rw [List.getElem?_map, List.getElem?_range h]
  rfl

theorem for_loop_zero {σ : Type} (body : Nat → σ → σ) (s : σ) :
    for_loop 0 body 0 s = s :=
  for_loop_done 0 body 0 s (by omega)

theorem for_loop_succ {σ : Type} (body : Nat → σ → σ) (size : Nat) (s : σ) :
    for_loop (size + 1) body 0 s = body size (for_loop size body 0 s) :=
  for_loop_step body size size 0 s (by omega) (by omega)

theorem b2n_land (a b : Bool) : Nat.land (b2n a) (b2n b) = b2n (a && b) := by
  cases a <;> cases b <;> decide

end C


namespace DuffsDevice

open C

/-! ### Lemmas on runs of copy statements -/

theorem copies_add (a b : Nat) (s : CopyState) :
    copies (a + b) s = copies b (copies a s) := by
  induction a generalizing s with
  | zero => simp [copies]
  | succ a ih =>
    have h : a + 1 + b = (a + b) + 1 := by omega
    rw [h]
    simp only [copies]
    exact ih (copy_one s)

theorem copies_fromBuf (k : Nat) (s : CopyState) : (copies k s).fromBuf = s.fromBuf := by
  induction k generalizing s with
  | zero => rfl
  | succ k ih => simp only [copies]; rw [ih]; rfl

theorem copies_toPos (k : Nat) (s : CopyState) : (copies k s).toPos = s.toPos + k := by
  induction k generalizing s with
  | zero => rfl
  | succ k ih => simp only [copies]; rw [ih]; simp only [copy_one]; omega

theorem copies_fromPos (k : Nat) (s : CopyState) : (copies k s).fromPos = s.fromPos + k := by
  induction k generalizing s with
  | zero => rfl
  | succ k ih => simp only [copies]; rw [ih]; simp only [copy_one]; omega

theorem copies_toBuf (k : Nat) (s : CopyState) (i : Nat) :
    (copies k s).toBuf i =
      if s.toPos ≤ i ∧ i < s.toPos + k then s.fromBuf (s.fromPos + (i - s.toPos))
      else s.toBuf i := by
  induction k generalizing s with
  | zero =>
    have h : ¬ (s.toPos ≤ i ∧ i < s.toPos + 0) := by omega
    rw [if_neg h]
    rfl
  | succ k ih =>
    simp only [copies]
    rw [ih]
    simp only [copy_one]
    by_cases h1 : s.toPos + 1 ≤ i ∧ i < s.toPos + 1 + k
    · have h2 : s.toPos ≤ i ∧ i < s.toPos + (k + 1) := by omega
      have h3 : s.fromPos + 1 + (i - (s.toPos + 1)) = s.fromPos + (i - s.toPos) := by omega
      rw [if_pos h1, if_pos h2, h3]
    · rw [if_neg h1]
      by_cases h4 : i = s.toPos
      · subst h4
        have h2 : s.toPos ≤ s.toPos ∧ s.toPos < s.toPos + (k + 1) := by omega
        rw [if_pos h2]
        simp
      · have h2 : ¬ (s.toPos ≤ i ∧ i < s.toPos + (k + 1)) := by omega
        rw [if_neg h2, Function.update_noteq h4]

/-- The do-while loop runs its body `max 1 n` times. -/
theorem unrolled_loop_eq (m : Nat) (s : CopyState) (n : Int) (h : n ≤ 1 + (m : Int)) :
    unrolled_loop s n = copies (8 * (max 1 n).toNat) s := by
  induction m generalizing s n with
  | zero =>
    rw [unrolled_loop]
    have h1 : ¬ (0 < n - 1) := by omega
    have h2 : (max 1 n).toNat = 1 := by omega
    simp only [h1, if_false, h2]
  | succ m ih =>
    rw [unrolled_loop]
    by_cases h1 : 0 < n - 1
    · simp only [h1, if_true]
      rw [ih (copies 8 s) (n - 1) (by push_cast at h; omega), ← copies_add]
      congr 1
      omega
    · have h2 : (max 1 n).toNat = 1 := by omega
      simp only [h1, if_false, h2]

theorem unrolled_loop_copies (s : CopyState) (n : Int) :
    unrolled_loop s n = copies (8 * (max 1 n).toNat) s :=
  unrolled_loop_eq n.toNat s n (by omega)

theorem send_copies (toArr fromArr : Nat → Int) (count : Int) :
    send toArr fromArr count
      = copies (8 * (max 1 (Int.tdiv count 8)).toNat) ⟨toArr, fromArr, 0, 0⟩ :=
  unrolled_loop_copies _ _

theorem duff_entry_copies (k : Nat) (s : CopyState) (n : Int) :
    duff_entry k s n = copies (k + 8 * (n - 1).toNat) s := by
  unfold duff_entry
  by_cases h : 0 < n - 1
  · simp only [h, if_true]
    rw [unrolled_loop_copies, ← copies_add]
    congr 1
    omega
  · have h0 : (n - 1).toNat = 0 := by omega
    simp only [h, if_false, h0]
    rfl

/-- On the counts for which `count + 7` does not overflow, `duff_send` is a run
of exactly `count` copy statements. -/
theorem duff_send_copies (toArr fromArr : Nat → Int) (count : Int)
    (h1 : 1 ≤ count) (h2 : count ≤ INT_MAX - 7) :
    duff_send toArr fromArr count = copies count.toNat ⟨toArr, fromArr, 0, 0⟩ := by
  have hw : wrap32 (count + 7) = count + 7 := by
    unfold wrap32
    unfold INT_MAX at h2
    omega
  have hd : Int.tdiv (count + 7) 8 = (count + 7) / 8 :=
    Int.tdiv_eq_ediv (by omega) (by decide)
  have hm : Int.tmod count 8 = count % 8 := Int.tmod_eq_emod (by omega) (by decide)
  unfold duff_send
  simp only [hw, hd, hm]
  split_ifs with c0 c7 c6 c5 c4 c3 c2 c1
  · rw [unrolled_loop_copies]
    congr 1
    omega
  all_goals first
    | (rw [duff_entry_copies]; congr 1; omega)
    | omega

/-- With `count = 0` the `switch` enters at `case 0` and the do-while body runs
once: eight elements are copied. -/
theorem duff_send_zero (toArr fromArr : Nat → Int) :
    duff_send toArr fromArr 0 = copies 8 ⟨toArr, fromArr, 0, 0⟩ := by
  have hw : wrap32 (0 + 7) = 7 := by decide
  have hd : Int.tdiv 7 8 = 0 := by decide
  have hm : Int.tmod 0 8 = 0 := by decide
  unfold duff_send
  simp only [hw, hd, hm, if_true]
  rw [unrolled_loop_copies]
  rfl

/-- Buffer contents after a run of `k` copy statements from the start of both
arrays. -/
theorem copies_start_toBuf (toArr fromArr : Nat → Int) (k i : Nat) :
    (copies k ⟨toArr, fromArr, 0, 0⟩).toBuf i = if i < k then fromArr i else toArr i := by
  rw [copies_toBuf]
  by_cases h : i < k
  · have h2 : (0 : Nat) ≤ i ∧ i < 0 + k := by omega
    simp only [h, h2, and_self, if_true]
    congr 1
    omega
  · have h2 : ¬ ((0 : Nat) ≤ i ∧ i < 0 + k) := by omega
    simp only [h, h2, if_false]

/-! ### Claims on `duffs-device.c` -/

/-- C1 (as stated, at `n = 0`): `duff_send` with count 0 overwrites `to[0]`
(and the seven slots after it), while a scalar copy of 0 elements leaves `to`
as it was. -/
theorem C1_duff_send_zero_differs_from_scalar :
    (duff_send (fun _ => 0) (fun _ => 42) 0).toBuf 0 = 42 ∧
    (duff_send (fun _ => 0) (fun _ => 42) 0).toBuf 7 = 42 ∧
    (scalar_copy (fun _ => 0) (fun _ => 42) 0).toBuf 0 = 0 ∧
    (duff_send (fun _ => 0) (fun _ => 42) 0).toBuf
      ≠ (scalar_copy (fun _ => 0) (fun _ => 42) 0).toBuf := by
  have e0 : (duff_send (fun _ => 0) (fun _ => 42) 0).toBuf 0 = 42 := by
    rw [duff_send_zero, copies_start_toBuf]; rfl
  have e7 : (duff_send (fun _ => 0) (fun _ => 42) 0).toBuf 7 = 42 := by
    rw [duff_send_zero, copies_start_toBuf]; rfl
  have es : (scalar_copy (fun _ => 0) (fun _ => 42) 0).toBuf 0 = 0 := rfl
  refine ⟨e0, e7, es, fun h => ?_⟩
  have h0 := congrFun h 0
  rw [e0, es] at h0
  exact absurd h0 (by decide)

/-- C1 (amended): for every element count `n` with `1 ≤ n ≤ INT_MAX - 7` and all
buffers, `duff_send(to, from, n)` leaves `to` exactly as the scalar
one-element-per-iteration copy of `n` elements does: `to[i] = from[i]` for
`i < n`, and `to[i]` unchanged for `i ≥ n`. -/
theorem C1_duff_send_refines_scalar (toArr fromArr : Nat → Int) (n : Nat)
    (h1 : 1 ≤ n) (h2 : (n : Int) ≤ INT_MAX - 7) :
    (duff_send toArr fromArr n).toBuf = (scalar_copy toArr fromArr n).toBuf ∧
    ∀ i : Nat, (duff_send toArr fromArr n).toBuf i = if i < n then fromArr i else toArr i := by
  have e : duff_send toArr fromArr n = copies n ⟨toArr, fromArr, 0, 0⟩ := by
    rw [duff_send_copies toArr fromArr n (by omega) h2, Int.toNat_ofNat]
  refine ⟨by rw [e]; rfl, fun i => ?_⟩
  rw [e, copies_start_toBuf]

theorem C1_duff_send_refines_scalar_witness :
    (duff_send (fun _ => 0) (fun _ => 42) (9 : Nat)).toBuf
        = (scalar_copy (fun _ => 0) (fun _ => 42) 9).toBuf ∧
    (duff_send (fun _ => 0) (fun _ => 42) (9 : Nat)).toBuf 8 = 42 ∧
    (duff_send (fun _ => 0) (fun _ => 42) (9 : Nat)).toBuf 9 = 0 :=
  have h := C1_duff_send_refines_scalar (fun _ => 0) (fun _ => 42) 9 (by decide) (by decide)
  ⟨h.1, by rw [h.2 8]; rfl, by rw [h.2 9]; rfl⟩

/-- C2: for every `count` with `1 ≤ count ≤ INT_MAX - 7`, divisible by 8 or
not, `duff_send(to, from, count)` copies exactly `count` elements:
`to[i] = from[i]` for `i < count`, every `to[i]` with `i ≥ count` keeps its
value, `from` is unchanged, and both pointers have advanced by `count`. -/
theorem C2_duff_send_copies_exactly_count (toArr fromArr : Nat → Int) (count : Int)
    (h1 : 1 ≤ count) (h2 : count ≤ INT_MAX - 7) :
    (∀ i : Nat, (i : Int) < count → (duff_send toArr fromArr count).toBuf i = fromArr i) ∧
    (∀ i : Nat, count ≤ (i : Int) → (duff_send toArr fromArr count).toBuf i = toArr i) ∧
    (duff_send toArr fromArr count).fromBuf = fromArr ∧
    ((duff_send toArr fromArr count).toPos : Int) = count ∧
    ((duff_send toArr fromArr count).fromPos : Int) = count := by
  rw [duff_send_copies toArr fromArr count h1 h2]
  refine ⟨fun i hi => ?_, fun i hi => ?_, ?_, ?_, ?_⟩
  · rw [copies_start_toBuf, if_pos (by omega)]
  · rw [copies_start_toBuf, if_neg (by omega)]
  · rw [copies_fromBuf]
  · rw [copies_toPos]; simp only []; omega
  · rw [copies_fromPos]; simp only []; omega

theorem C2_duff_send_copies_exactly_count_witness :
    (duff_send (fun _ => 0) (fun _ => 42) 255).toBuf 254 = 42 ∧
    (duff_send (fun _ => 0) (fun _ => 42) 255).toBuf 255 = 0 ∧
    ((duff_send (fun _ => 0) (fun _ => 42) 255).toPos : Int) = 255 :=
  have h := C2_duff_send_copies_exactly_count (fun _ => 0) (fun _ => 42) 255
    (by decide) (by decide)
  ⟨h.1 254 (by decide), h.2.1 255 (by decide), h.2.2.2.1⟩

/-- C3: for every positive `count` divisible by 8, `send(to, from, count)`
copies exactly `count` elements: `to[i] = from[i]` for `i < count` and every
`to[i]` with `i ≥ count` keeps its value. -/
theorem C3_send_copies_multiples_of_eight (toArr fromArr : Nat → Int) (count : Int)
    (hpos : 0 < count) (hdiv : (8 : Int) ∣ count) :
    (∀ i : Nat, (i : Int) < count → (send toArr fromArr count).toBuf i = fromArr i) ∧
    (∀ i : Nat, count ≤ (i : Int) → (send toArr fromArr count).toBuf i = toArr i) := by
  have hd : Int.tdiv count 8 = count / 8 := Int.tdiv_eq_ediv (by omega) (by decide)
  have e : 8 * (max 1 (count / 8)).toNat = count.toNat := by omega
  rw [send_copies, hd, e]
  refine ⟨fun i hi => ?_, fun i hi => ?_⟩
  · rw [copies_start_toBuf, if_pos (by omega)]
  · rw [copies_start_toBuf, if_neg (by omega)]

theorem C3_send_copies_multiples_of_eight_witness :
    (send (fun _ => 0) (fun _ => 42) 16).toBuf 15 = 42 ∧
    (send (fun _ => 0) (fun _ => 42) 16).toBuf 16 = 0 :=
  have h := C3_send_copies_multiples_of_eight (fun _ => 0) (fun _ => 42) 16
    (by decide) (by decide)
  ⟨h.1 15 (by decide), h.2 16 (by decide)⟩

/-- C4 (as stated, at `count = 3`): `send` with count 3 copies eight elements;
it overwrites `to[0..2]`, which the claim says keep their values, and it
writes `to[3..7]`, positions at or beyond `count`. -/
theorem C4_send_small_count_overwrites :
    (send (fun _ => 0) (fun _ => 42) 3).toBuf 0 = 42 ∧
    (send (fun _ => 0) (fun _ => 42) 3).toBuf 2 = 42 ∧
    (send (fun _ => 0) (fun _ => 42) 3).toBuf 3 = 42 ∧
    (send (fun _ => 0) (fun _ => 42) 3).toBuf 7 = 42 ∧
    (send (fun _ => 0) (fun _ => 42) 3).toBuf 8 = 0 := by
  have hd : Int.tdiv 3 8 = 0 := by decide
  have e : 8 * (max 1 (0 : Int)).toNat = 8 := by decide
  rw [send_copies, hd, e]
  simp only [copies_start_toBuf]
  decide

/-- C4 (amended): for every `count ≥ 8` that is not divisible by 8, the result
of `send(to, from, count)` is truncated: exactly the first `8 * floor(count/8)`
elements are copied, the last `count mod 8` positions
`to[8*floor(count/8) .. count-1]` keep their values, and no position at or
beyond `count` is written. -/
theorem C4_send_truncates (toArr fromArr : Nat → Int) (count : Int)
    (h8 : 8 ≤ count) (hnd : ¬ (8 : Int) ∣ count) :
    8 * (count / 8) < count ∧
    (∀ i : Nat, (i : Int) < 8 * (count / 8) → (send toArr fromArr count).toBuf i = fromArr i) ∧
    (∀ i : Nat, 8 * (count / 8) ≤ (i : Int) → (send toArr fromArr count).toBuf i = toArr i) := by
  have hd : Int.tdiv count 8 = count / 8 := Int.tdiv_eq_ediv (by omega) (by decide)
  have e : 8 * (max 1 (count / 8)).toNat = (8 * (count / 8)).toNat := by omega
  rw [send_copies, hd, e]
  refine ⟨by omega, fun i hi => ?_, fun i hi => ?_⟩
  · rw [copies_start_toBuf, if_pos (by omega)]
  · rw [copies_start_toBuf, if_neg (by omega)]

theorem C4_send_truncates_witness :
    (send (fun _ => 0) (fun _ => 42) 255).toBuf 247 = 42 ∧
    (send (fun _ => 0) (fun _ => 42) 255).toBuf 248 = 0 ∧
    (send (fun _ => 0) (fun _ => 42) 255).toBuf 254 = 0 :=
  have h := C4_send_truncates (fun _ => 0) (fun _ => 42) 255 (by decide) (by decide)
  ⟨h.2.1 247 (by decide), h.2.2 248 (by decide), h.2.2 254 (by decide)⟩

/-! ### The corrected `send`, and `send` on every count -/

/-- The epilogue loop is a run of `n` copy statements (none for `n ≤ 0`). -/
theorem epilogue_loop_eq (m : Nat) (s : CopyState) (n : Int) (h : n ≤ (m : Int)) :
    epilogue_loop s n = copies n.toNat s := by
  induction m generalizing s n with
  | zero =>
    rw [epilogue_loop, if_neg (by omega)]
    have h0 : n.toNat = 0 := by omega
    rw [h0]
    rfl
  | succ m ih =>
    rw [epilogue_loop]
    by_cases h1 : 0 < n
    · rw [if_pos h1, ih (copy_one s) (n - 1) (by push_cast at h; omega)]
      have e : n.toNat = (n - 1).toNat + 1 := by omega
      rw [e]
      rfl
    · rw [if_neg h1]
      have h0 : n.toNat = 0 := by omega
      rw [h0]
      rfl

theorem epilogue_loop_copies (s : CopyState) (n : Int) :
    epilogue_loop s n = copies n.toNat s :=
  epilogue_loop_eq n.toNat s n (by omega)

/-- The corrected `send` is a run of `8 * max(1, count / 8) + max(0, count % 8)`
copy statements. -/
theorem send_corrected_copies (toArr fromArr : Nat → Int) (count : Int) :
    send_corrected toArr fromArr count
      = copies (8 * (max 1 (Int.tdiv count 8)).toNat + (Int.tmod count 8).toNat)
          ⟨toArr, fromArr, 0, 0⟩ := by
  unfold send_corrected
  rw [unrolled_loop_copies, epilogue_loop_copies, ← copies_add]

/-- C17 (as stated, at `count = 0` and `count = 3`): the do-while loop of the
corrected `send` runs once although `count / 8 = 0`, so with count 0 eight
elements are copied, and with count 3 eleven: `to[3..10]`, at or beyond
`count`, are overwritten. -/
theorem C17_send_corrected_small_count_overcopies :
    (send_corrected (fun _ => 0) (fun _ => 42) 0).toBuf 0 = 42 ∧
    (send_corrected (fun _ => 0) (fun _ => 42) 0).toBuf 7 = 42 ∧
    (send_corrected (fun _ => 0) (fun _ => 42) 3).toBuf 3 = 42 ∧
    (send_corrected (fun _ => 0) (fun _ => 42) 3).toBuf 10 = 42 ∧
    (send_corrected (fun _ => 0) (fun _ => 42) 3).toBuf 11 = 0 := by
  have e0 : 8 * (max 1 (Int.tdiv 0 8)).toNat + (Int.tmod 0 8).toNat = 8 := by decide
  have e3 : 8 * (max 1 (Int.tdiv 3 8)).toNat + (Int.tmod 3 8).toNat = 11 := by decide
  rw [send_corrected_copies, send_corrected_copies, e0, e3]
  simp only [copies_start_toBuf]
  decide

/-- C17 (amended): for every `count ≥ 8`, `send` corrected as its comment
prescribes (the eight-fold do-while loop followed by the epilogue loop) copies
exactly `count` elements: `to[i] = from[i]` for every `i < count`, and every
`to[i]` with `i ≥ count` keeps its value. -/
theorem C17_send_corrected_copies_exactly_count (toArr fromArr : Nat → Int) (count : Int)
    (h8 : 8 ≤ count) :
    (∀ i : Nat, (i : Int) < count → (send_corrected toArr fromArr count).toBuf i = fromArr i) ∧
    (∀ i : Nat, count ≤ (i : Int) → (send_corrected toArr fromArr count).toBuf i = toArr i) ∧
    ((send_corrected toArr fromArr count).toPos : Int) = count := by
  have hd : Int.tdiv count 8 = count / 8 := Int.tdiv_eq_ediv (by omega) (by decide)
  have hm : Int.tmod count 8 = count % 8 := Int.tmod_eq_emod (by omega) (by decide)
  have e : 8 * (max 1 (count / 8)).toNat + (count % 8).toNat = count.toNat := by omega
  rw [send_corrected_copies, hd, hm, e]
  refine ⟨fun i hi => ?_, fun i hi => ?_, ?_⟩
  · rw [copies_start_toBuf, if_pos (by omega)]
  · rw [copies_start_toBuf, if_neg (by omega)]
  · rw [copies_toPos]; simp only []; omega

theorem C17_send_corrected_copies_exactly_count_witness :
    (send_corrected (fun _ => 0) (fun _ => 42) 255).toBuf 254 = 42 ∧
    (send_corrected (fun _ => 0) (fun _ => 42) 255).toBuf 255 = 0 ∧
    ((send_corrected (fun _ => 0) (fun _ => 42) 255).toPos : Int) = 255 :=
  have h := C17_send_corrected_copies_exactly_count (fun _ => 0) (fun _ => 42) 255 (by decide)
  ⟨h.1 254 (by decide), h.2.1 255 (by decide), h.2.2⟩

/-- C18: for every `count` (zero, negative or positive, divisible by 8 or not),
`send(to, from, count)` terminates (it is a total function) and writes exactly
the first `8 * max(1, count / 8)` elements, `/` being the C division:
`to[i] = from[i]` below that bound, every other `to[i]` keeps its value, both
pointers end that far in, `from` is unchanged, and the bound is at least 8. -/
theorem C18_send_copies_eight_times_max (toArr fromArr : Nat → Int) (count : Int) :
    send toArr fromArr count
      = copies (8 * (max 1 (Int.tdiv count 8)).toNat) ⟨toArr, fromArr, 0, 0⟩ ∧
    (∀ i : Nat, i < 8 * (max 1 (Int.tdiv count 8)).toNat →
      (send toArr fromArr count).toBuf i = fromArr i) ∧
    (∀ i : Nat, 8 * (max 1 (Int.tdiv count 8)).toNat ≤ i →
      (send toArr fromArr count).toBuf i = toArr i) ∧
    (send toArr fromArr count).toPos = 8 * (max 1 (Int.tdiv count 8)).toNat ∧
    (send toArr fromArr count).fromPos = 8 * (max 1 (Int.tdiv count 8)).toNat ∧
    (send toArr fromArr count).fromBuf = fromArr ∧
    8 ≤ 8 * (max 1 (Int.tdiv count 8)).toNat ∧
    ((8 * (max 1 (Int.tdiv count 8)).toNat : Nat) : Int) = 8 * max 1 (Int.tdiv count 8) := by
  rw [send_copies]
  refine ⟨rfl, fun i hi => ?_, fun i hi => ?_, ?_, ?_, ?_, by omega, by omega⟩
  · rw [copies_start_toBuf, if_pos hi]
  · rw [copies_start_toBuf, if_neg (by omega)]
  · rw [copies_toPos]; simp only []; omega
  · rw [copies_fromPos]; simp only []; omega
  · rw [copies_fromBuf]

end DuffsDevice

namespace Unroll

open C

/-! ### Lemmas on the two subtraction loops -/

theorem BATcalcsub_loop_spec (size m : Nat) (k : Nat) (s : BatState) (hm : size - k ≤ m) :
    (BATcalcsub_loop size k k k s).left = s.left ∧
    (BATcalcsub_loop size k k k s).right = s.right ∧
    (∀ x, (BATcalcsub_loop size k k k s).result x
        = if k ≤ x ∧ x < size then wrap32 (s.left x - s.right x) else s.result x) ∧
    (∀ x ∈ (BATcalcsub_loop size k k k s).idx, x ∈ s.idx ∨ x < size) := by
  induction m generalizing k s with
  | zero =>
    rw [BATcalcsub_loop]
    have h : ¬ k < size := by omega
    rw [if_neg h]
    refine ⟨rfl, rfl, fun x => ?_, fun x hx => Or.inl hx⟩
    rw [if_neg (by omega)]
  | succ m ih =>
    rw [BATcalcsub_loop]
    by_cases h : k < size
    · simp only [h, if_true]
      obtain ⟨hl, hr, hres, hidx⟩ := ih (k + 1) (sub_stmt k k k s) (by omega)
      refine ⟨by rw [hl]; rfl, by rw [hr]; rfl, fun x => ?_, fun x hx => ?_⟩
      · rw [hres x]
        simp only [sub_stmt]
        by_cases hx : k + 1 ≤ x ∧ x < size
        · rw [if_pos hx, if_pos (by omega)]
        · rw [if_neg hx]
          by_cases hk : x = k
          · subst hk
            rw [Function.update_same, if_pos (by omega)]
          · rw [Function.update_noteq hk, if_neg (by omega)]
      · rcases hidx x hx with h1 | h1
        · simp only [sub_stmt, List.mem_cons] at h1
          rcases h1 with h1 | h1 | h1 | h1
          · right; omega
          · right; omega
          · right; omega
          · left; exact h1
        · right; exact h1
    · rw [if_neg h]
      refine ⟨rfl, rfl, fun x => ?_, fun x hx => Or.inl hx⟩
      rw [if_neg (by omega)]

theorem BATcalcsub_unrolled_loop_spec (size m : Nat) (k : Nat) (s : BatState)
    (hm : size - k ≤ m) (hk : k ≤ size) (h4 : (size - k) % 4 = 0) :
    (BATcalcsub_unrolled_loop size k k k s).left = s.left ∧
    (BATcalcsub_unrolled_loop size k k k s).right = s.right ∧
    (∀ x, (BATcalcsub_unrolled_loop size k k k s).result x
        = if k ≤ x ∧ x < size then wrap32 (s.left x - s.right x) else s.result x) ∧
    (∀ x ∈ (BATcalcsub_unrolled_loop size k k k s).idx, x ∈ s.idx ∨ x < size) := by
  induction m generalizing k s with
  | zero =>
    rw [BATcalcsub_unrolled_loop]
    have h : ¬ k < size := by omega
    rw [if_neg h]
    refine ⟨rfl, rfl, fun x => ?_, fun x hx => Or.inl hx⟩
    rw [if_neg (by omega)]
  | succ m ih =>
    rw [BATcalcsub_unrolled_loop]
    by_cases h : k < size
    · simp only [h, if_true]
      obtain ⟨hl, hr, hres, hidx⟩ :=
        ih (k + 4) (sub_stmt (k + 3) (k + 3) (k + 3) (sub_stmt (k + 2) (k + 2) (k + 2)
          (sub_stmt (k + 1) (k + 1) (k + 1) (sub_stmt k k k s)))) (by omega) (by omega) (by omega)
      refine ⟨by rw [hl]; rfl, by rw [hr]; rfl, fun x => ?_, fun x hx => ?_⟩
      · rw [hres x]
        simp only [sub_stmt]
        by_cases hx : k + 4 ≤ x ∧ x < size
        · rw [if_pos hx, if_pos (by omega)]
        · rw [if_neg hx]
          by_cases h3 : x = k + 3
          · subst h3
            rw [Function.update_same, if_pos (by omega)]
          · rw [Function.update_noteq h3]
            by_cases h2 : x = k + 2
            · subst h2
              rw [Function.update_same, if_pos (by omega)]
            · rw [Function.update_noteq h2]
              by_cases h1 : x = k + 1
              · subst h1
                rw [Function.update_same, if_pos (by omega)]
              · rw [Function.update_noteq h1]
                by_cases h0 : x = k
                · subst h0
                  rw [Function.update_same, if_pos (by omega)]
                · rw [Function.update_noteq h0, if_neg (by omega)]
      · rcases hidx x hx with h1 | h1
        · simp only [sub_stmt, List.mem_cons] at h1
          rcases h1 with h1 | h1 | h1 | h1 | h1 | h1 | h1 | h1 | h1 | h1 | h1 | h1 | h1
          all_goals first
            | (left; exact h1)
            | (right; omega)
        · right; exact h1
    · rw [if_neg h]
      refine ⟨rfl, rfl, fun x => ?_, fun x hx => Or.inl hx⟩
      rw [if_neg (by omega)]

theorem BATcalcsub_eq (left right result : Nat → Int) :
    BATcalcsub left right result = BATcalcsub_sized SIZE left right result := rfl

theorem BATcalcsub_unrolled_eq (left right result : Nat → Int) :
    BATcalcsub_unrolled left right result = BATcalcsub_unrolled_sized SIZE left right result :=
  rfl

/-! ### Claim on `unroll.c` -/

/-- C5: for every array length `n` divisible by the unroll factor 4 (the
program's `SIZE = 256 * 1024 * 1024` is one), and all input buffers `left`,
`right` and every initial `result` buffer, `BATcalcsub_unrolled` and
`BATcalcsub` produce identical result buffers: `result[k] = left[k] - right[k]`
in 32-bit arithmetic for every `k < n`, `result[k]` unchanged for `k ≥ n`, no
subscript `≥ n` is evaluated by either function, and `left` and `right` are
unchanged. -/
theorem C5_BATcalcsub_unrolled_eq_BATcalcsub (n : Nat) (h4 : 4 ∣ n)
    (left right result : Nat → Int) :
    (BATcalcsub_unrolled_sized n left right result).result
      = (BATcalcsub_sized n left right result).result ∧
    (∀ k, (BATcalcsub_unrolled_sized n left right result).result k
      = if k < n then wrap32 (left k - right k) else result k) ∧
    (∀ k, (BATcalcsub_sized n left right result).result k
      = if k < n then wrap32 (left k - right k) else result k) ∧
    (∀ x ∈ (BATcalcsub_unrolled_sized n left right result).idx, x < n) ∧
    (∀ x ∈ (BATcalcsub_sized n left right result).idx, x < n) ∧
    (BATcalcsub_unrolled_sized n left right result).left = left ∧
    (BATcalcsub_unrolled_sized n left right result).right = right ∧
    (BATcalcsub_sized n left right result).left = left ∧
    (BATcalcsub_sized n left right result).right = right := by
  obtain ⟨ul, ur, ures, uidx⟩ :=
    BATcalcsub_unrolled_loop_spec n n 0 ⟨left, right, result, []⟩ (by omega) (by omega)
      (by omega)
  obtain ⟨sl, sr, sres, sidx⟩ :=
    BATcalcsub_loop_spec n n 0 ⟨left, right, result, []⟩ (by omega)
  have hu : ∀ k, (BATcalcsub_unrolled_sized n left right result).result k
      = if k < n then wrap32 (left k - right k) else result k := by
    intro k
    unfold BATcalcsub_unrolled_sized
    rw [ures k]
    by_cases hk : k < n
    · rw [if_pos hk, if_pos (by omega)]
    · rw [if_neg hk, if_neg (by omega)]
  have hs : ∀ k, (BATcalcsub_sized n left right result).result k
      = if k < n then wrap32 (left k - right k) else result k := by
    intro k
    unfold BATcalcsub_sized
    rw [sres k]
    by_cases hk : k < n
    · rw [if_pos hk, if_pos (by omega)]
    · rw [if_neg hk, if_neg (by omega)]
  refine ⟨funext fun k => by rw [hu k, hs k], hu, hs, fun x hx => ?_, fun x hx => ?_,
    ul, ur, sl, sr⟩
  · rcases uidx x hx with h | h
    · exact absurd h (List.not_mem_nil x)
    · exact h
  · rcases sidx x hx with h | h
    · exact absurd h (List.not_mem_nil x)
    · exact h

theorem C5_BATcalcsub_unrolled_eq_BATcalcsub_witness :
    (BATcalcsub_unrolled (fun _ => 42) (fun _ => 42) (fun _ => 42)).result
      = (BATcalcsub (fun _ => 42) (fun _ => 42) (fun _ => 42)).result ∧
    (BATcalcsub_unrolled (fun _ => 42) (fun _ => 42) (fun _ => 42)).result 42 = 0 ∧
    (BATcalcsub_unrolled (fun _ => 42) (fun _ => 42) (fun _ => 42)).result SIZE = 42 := by
  have h := C5_BATcalcsub_unrolled_eq_BATcalcsub SIZE (by decide)
    (fun _ => 42) (fun _ => 42) (fun _ => 42)
  rw [BATcalcsub_unrolled_eq, BATcalcsub_eq]
  exact ⟨h.1, (h.2.1 42).trans (by decide), (h.2.1 SIZE).trans (by decide)⟩

end Unroll

namespace C

/-- Writing slot `k` does not change what the slots below `k` hold. -/
theorem map_update_range (f : Nat → Int) (k : Nat) (x : Int) :
    (List.range k).map (Function.update f k x) = (List.range k).map f := by
  apply List.map_congr_left
  intro j hj
  have hlt : j < k := List.mem_range.mp hj
  have hne : j ≠ k := by omega
  exact Function.update_noteq hne x f

/-- Writing slot `k` and then reading slots `0..k`. -/
theorem map_update_range_succ (f : Nat → Int) (k : Nat) (x : Int) :
    (List.range (k + 1)).map (Function.update f k x) = (List.range k).map f ++ [x] := by
  rw [List.range_succ, List.map_append, map_update_range]
  simp

end C

namespace BranchPrediction

open C

/-! ### Lemmas on the selection loops of `branch-prediction.c` -/

theorem qualifying_succ (col : Nat → Int) (v : Int) (n : Nat) :
    qualifying col v (n + 1) = qualifying col v n ++ (if col n < v then [n] else []) := by
  unfold qualifying
  rw [List.range_succ, List.filter_append]
  by_cases h : col n < v
  · simp [h]
  · simp [h]

theorem select_branchless_succ (n : Nat) (col : Nat → Int) (v : Int) (sv : Nat → Int) :
    select_branchless (n + 1) col v sv = branchless_body col v n (select_branchless n col v sv) :=
  for_loop_succ _ _ _

theorem select_branch_succ (n : Nat) (col : Nat → Int) (v : Int) (sv : Nat → Int) :
    select_branch (n + 1) col v sv = branch_body col v n (select_branch n col v sv) :=
  for_loop_succ _ _ _

/-- After the branch-less loop, `out` counts the qualifying positions and
`sv[0..out-1]` lists them in scan order. -/
theorem select_branchless_spec (n : Nat) (col : Nat → Int) (v : Int) (sv : Nat → Int) :
    (select_branchless n col v sv).out = (qualifying col v n).length ∧
    (List.range (select_branchless n col v sv).out).map (select_branchless n col v sv).sv
      = (qualifying col v n).map Int.ofNat := by
  induction n with
  | zero =>
    have e : select_branchless 0 col v sv = ⟨sv, 0⟩ := for_loop_zero _ _
    rw [e]
    exact ⟨rfl, rfl⟩
  | succ n ih =>
    obtain ⟨ho, hs⟩ := ih
    rw [select_branchless_succ, qualifying_succ]
    by_cases h : col n < v
    · have hb : b2n (decide (col n < v)) = 1 := by simp [b2n, h]
      simp only [branchless_body, hb, if_pos h, List.length_append, List.length_singleton,
        List.map_append, List.map_cons, List.map_nil]
      refine ⟨by rw [ho], ?_⟩
      rw [map_update_range_succ, hs]
      rfl
    · have hb : b2n (decide (col n < v)) = 0 := by simp [b2n, h]
      simp only [branchless_body, hb, if_neg h, List.append_nil, Nat.add_zero]
      refine ⟨ho, ?_⟩
      rw [map_update_range, hs]

/-- After the branch-based loop, `out` counts the qualifying positions and
`sv[0..out-1]` lists them in scan order. -/
theorem select_branch_spec (n : Nat) (col : Nat → Int) (v : Int) (sv : Nat → Int) :
    (select_branch n col v sv).out = (qualifying col v n).length ∧
    (List.range (select_branch n col v sv).out).map (select_branch n col v sv).sv
      = (qualifying col v n).map Int.ofNat := by
  induction n with
  | zero =>
    have e : select_branch 0 col v sv = ⟨sv, 0⟩ := for_loop_zero _ _
    rw [e]
    exact ⟨rfl, rfl⟩
  | succ n ih =>
    obtain ⟨ho, hs⟩ := ih
    rw [select_branch_succ, qualifying_succ]
    by_cases h : col n < v
    · simp only [branch_body, if_pos h, List.length_append, List.length_singleton,
        List.map_append, List.map_cons, List.map_nil]
      refine ⟨by rw [ho], ?_⟩
      rw [map_update_range_succ, hs]
      rfl
    · simp only [branch_body, if_neg h, List.append_nil]
      exact ⟨ho, hs⟩

theorem qualifying_length_mono (col : Nat → Int) (v1 v2 : Int) (n : Nat) (h : v1 ≤ v2) :
    (qualifying col v1 n).length ≤ (qualifying col v2 n).length := by
  unfold qualifying
  apply List.Sublist.length_le
  apply List.monotone_filter_right
  intro i hi
  simp only [decide_eq_true_eq] at hi ⊢
  omega

theorem scenario_qualifying : qualifying scenario_col 4 8 = [0, 1, 3, 6] := by decide

/-! ### Claims on `branch-prediction.c` -/

/-- C6: for every column `col` of `n` elements, every threshold `v` and every
initial content of the selection vectors, the branch-less loop and the
branch-based loop finish with the same count `out`, equal to the number of
positions `i < n` with `col[i] < v`, and with the same `sv[0..out-1]`, which
lists exactly the qualifying positions in ascending scan order.  For
`col = [3,1,4,1,5,9,2,6]` and `v = 4` both give count 4 and select positions
0, 1, 3, 6, whose values are 3, 1, 1, 2. -/
theorem C6_branchless_matches_branch :
    (∀ (n : Nat) (col : Nat → Int) (v : Int) (sv sv' : Nat → Int),
      (select_branchless n col v sv).out = (select_branch n col v sv').out ∧
      (select_branchless n col v sv).out
        = ((List.range n).filter (fun i => decide (col i < v))).length ∧
      (List.range (select_branchless n col v sv).out).map (select_branchless n col v sv).sv
        = (List.range (select_branch n col v sv').out).map (select_branch n col v sv').sv ∧
      (List.range (select_branchless n col v sv).out).map (select_branchless n col v sv).sv
        = ((List.range n).filter (fun i => decide (col i < v))).map Int.ofNat) ∧
    (select_branchless 8 scenario_col 4 (fun _ => 0)).out = 4 ∧
    (select_branch 8 scenario_col 4 (fun _ => 0)).out = 4 ∧
    (List.range 4).map (select_branchless 8 scenario_col 4 (fun _ => 0)).sv = [0, 1, 3, 6] ∧
    (List.range 4).map (select_branch 8 scenario_col 4 (fun _ => 0)).sv = [0, 1, 3, 6] ∧
    [0, 1, 3, 6].map scenario_col = [3, 1, 1, 2] := by
  refine ⟨fun n col v sv sv' => ?_, ?_, ?_, ?_, ?_, ?_⟩
  · obtain ⟨ho, hs⟩ := select_branchless_spec n col v sv
    obtain ⟨ho', hs'⟩ := select_branch_spec n col v sv'
    exact ⟨ho.trans ho'.symm, ho, hs.trans hs'.symm, hs⟩
  · rw [(select_branchless_spec 8 scenario_col 4 _).1, scenario_qualifying]
    rfl
  · rw [(select_branch_spec 8 scenario_col 4 _).1, scenario_qualifying]
    rfl
  · obtain ⟨ho, hs⟩ := select_branchless_spec 8 scenario_col 4 (fun _ => 0)
    rw [scenario_qualifying] at ho hs
    rw [ho] at hs
    have e : ([0, 1, 3, 6] : List Nat).length = 4 := rfl
    rw [e] at hs
    exact hs.trans rfl
  · obtain ⟨ho, hs⟩ := select_branch_spec 8 scenario_col 4 (fun _ => 0)
    rw [scenario_qualifying] at ho hs
    rw [ho] at hs
    have e : ([0, 1, 3, 6] : List Nat).length = 4 := rfl
    rw [e] at hs
    exact hs.trans rfl
  · decide

/-- C10: for every column `col` and all thresholds `v1 ≤ v2`, the count `out`
of the selection loop for `col[i] < v1` is at most the count for `col[i] < v2`,
and so is the selectivity `out / size * 100` computed from it. -/
theorem C10_count_monotone_in_threshold (n : Nat) (col : Nat → Int) (v1 v2 : Int)
    (sv sv' : Nat → Int) (h : v1 ≤ v2) :
    (select_branchless n col v1 sv).out ≤ (select_branchless n col v2 sv').out ∧
    selectivity (select_branchless n col v1 sv).out n
      ≤ selectivity (select_branchless n col v2 sv').out n := by
  have hle : (select_branchless n col v1 sv).out ≤ (select_branchless n col v2 sv').out := by
    rw [(select_branchless_spec n col v1 sv).1, (select_branchless_spec n col v2 sv').1]
    exact qualifying_length_mono col v1 v2 n h
  refine ⟨hle, ?_⟩
  unfold selectivity
  have hq : ((select_branchless n col v1 sv).out : ℚ) ≤ ((select_branchless n col v2 sv').out : ℚ) :=
    Nat.cast_le.mpr hle
  gcongr

theorem C10_count_monotone_in_threshold_witness :
    (select_branchless 8 scenario_col 4 (fun _ => 0)).out
      ≤ (select_branchless 8 scenario_col 6 (fun _ => 0)).out :=
  (C10_count_monotone_in_threshold 8 scenario_col 4 6 (fun _ => 0) (fun _ => 0) (by decide)).1

/-! ### Edge cases of the threshold -/

theorem select_branchless_zero (col : Nat → Int) (v : Int) (sv : Nat → Int) :
    select_branchless 0 col v sv = ⟨sv, 0⟩ :=
  for_loop_zero _ _

theorem select_branch_zero (col : Nat → Int) (v : Int) (sv : Nat → Int) :
    select_branch 0 col v sv = ⟨sv, 0⟩ :=
  for_loop_zero _ _

/-- When every element is below the threshold, every position qualifies. -/
theorem qualifying_all (col : Nat → Int) (v : Int) (n : Nat) (h : ∀ i, i < n → col i < v) :
    qualifying col v n = List.range n := by
  unfold qualifying
  rw [List.filter_eq_self]
  intro i hi
  exact decide_eq_true (h i (List.mem_range.mp hi))

/-- When no element is below the threshold, no position qualifies. -/
theorem qualifying_none (col : Nat → Int) (v : Int) (n : Nat) (h : ∀ i, i < n → v ≤ col i) :
    qualifying col v n = [] := by
  unfold qualifying
  rw [List.filter_eq_nil_iff]
  intro i hi
  have hv := h i (List.mem_range.mp hi)
  rw [decide_eq_true_eq]
  omega

/-- C11 (as stated, on the one-element column `[RAND_MAX]` with
`v = RAND_MAX`): the value lies in `[0, RAND_MAX]` and the threshold is at the
domain maximum, yet the element is not selected, because `col[i] < v` is
strict: `out` is 0, not 1. -/
theorem C11_domain_maximum_not_selected :
    (select_branchless 1 (fun _ => RAND_MAX) RAND_MAX (fun _ => 0)).out = 0 ∧
    (select_branch 1 (fun _ => RAND_MAX) RAND_MAX (fun _ => 0)).out = 0 := by
  have hq : qualifying (fun _ => RAND_MAX) RAND_MAX 1 = [] :=
    qualifying_none _ _ _ (fun _ _ => le_refl _)
  rw [(select_branchless_spec 1 _ RAND_MAX _).1, (select_branch_spec 1 _ RAND_MAX _).1, hq]
  exact ⟨rfl, rfl⟩

/-- C11 (amended): for every column `col` of `n` elements whose values all lie
in `[0, RAND_MAX)`, strictly below the domain maximum, and every threshold
`v ≥ RAND_MAX`, the selection loop for `col[i] < v` selects every element:
`out = n`, and `sv[0..n-1]` lists the positions `0 .. n-1`. -/
theorem C11_threshold_at_maximum_selects_all (n : Nat) (col : Nat → Int) (v : Int)
    (sv : Nat → Int) (hcol : ∀ i, i < n → 0 ≤ col i ∧ col i < RAND_MAX)
    (hv : RAND_MAX ≤ v) :
    (select_branchless n col v sv).out = n ∧
    (List.range n).map (select_branchless n col v sv).sv = (List.range n).map Int.ofNat := by
  have hq : qualifying col v n = List.range n :=
    qualifying_all col v n (fun i hi => lt_of_lt_of_le (hcol i hi).2 hv)
  obtain ⟨ho, hs⟩ := select_branchless_spec n col v sv
  rw [hq] at ho hs
  rw [List.length_range] at ho
  rw [ho] at hs
  exact ⟨ho, hs⟩

theorem C11_threshold_at_maximum_selects_all_witness :
    (select_branchless 8 scenario_col RAND_MAX (fun _ => 0)).out = 8 :=
  (C11_threshold_at_maximum_selects_all 8 scenario_col RAND_MAX (fun _ => 0) (by decide)
    (by decide)).1

/-- C13: for every column `col` of `n` elements whose values are all `≥ 0`, the
selection loop with threshold `v = 0` (the threshold of sweep step 0) ends with
`out = 0`; and on an empty column (`n = 0`) it ends, for every `v`, in its
initial state: `out = 0`, `sv` as it was, no loop body executed whatever the
body is. -/
theorem C13_threshold_at_minimum_selects_none (n : Nat) (col : Nat → Int) (v : Int)
    (sv : Nat → Int) (hcol : ∀ i, i < n → 0 ≤ col i) :
    (select_branchless n col 0 sv).out = 0 ∧
    (select_branch n col 0 sv).out = 0 ∧
    threshold RAND_MAX 0 = 0 ∧
    (select_branchless 0 col v sv).out = 0 ∧
    (select_branchless 0 col v sv).sv = sv ∧
    (∀ body : Nat → SelState → SelState, for_loop 0 body 0 ⟨sv, 0⟩ = ⟨sv, 0⟩) := by
  have hq : qualifying col 0 n = [] := qualifying_none col 0 n hcol
  refine ⟨?_, ?_, by decide, ?_, ?_, fun body => for_loop_zero body _⟩
  · rw [(select_branchless_spec n col 0 sv).1, hq]
    rfl
  · rw [(select_branch_spec n col 0 sv).1, hq]
    rfl
  · rw [select_branchless_zero]
  · rw [select_branchless_zero]

theorem C13_threshold_at_minimum_selects_none_witness :
    (select_branchless 8 scenario_col 0 (fun _ => 0)).out = 0 :=
  (C13_threshold_at_minimum_selects_none 8 scenario_col 0 (fun _ => 0) (by decide)).1

/-! ### The threshold sweep and `cmp` -/

theorem threshold_eq (step : Int) (h0 : 0 ≤ step) (h1 : step ≤ 10) :
    threshold RAND_MAX step = step * 214748364 := by
  have hd : Int.tdiv RAND_MAX (STEPS - 1) = 214748364 := by decide
  unfold threshold
  rw [hd]
  unfold wrap32
  omega

/-- C12: the threshold sweep with `STEPS = 11` and `RAND_MAX = 2^31 - 1`.
`v` is 0 at step 0, consecutive steps differ by the same amount
`RAND_MAX / 10 = 214748364`, and no step overflows a 32-bit int; but at the
last step `STEPS - 1` the code computes `v = 10 * (RAND_MAX / 10) = 2147483640`,
which is `RAND_MAX - 7` and not `RAND_MAX`, because the division truncates.
The sweep of `mixed-mode-conjunction.c` is the same expression. -/
theorem C12_threshold_sweep_stops_short :
    threshold RAND_MAX 0 = 0 ∧
    threshold RAND_MAX (STEPS - 1) = 2147483640 ∧
    threshold RAND_MAX (STEPS - 1) = RAND_MAX - 7 ∧
    threshold RAND_MAX (STEPS - 1) ≠ RAND_MAX ∧
    (∀ step : Fin 10, threshold RAND_MAX (((step : Nat) : Int) + 1)
      - threshold RAND_MAX ((step : Nat) : Int) = 214748364) ∧
    (∀ step : Fin 11, threshold RAND_MAX ((step : Nat) : Int)
        = ((step : Nat) : Int) * Int.tdiv RAND_MAX (STEPS - 1) ∧
      0 ≤ ((step : Nat) : Int) * Int.tdiv RAND_MAX (STEPS - 1) ∧
      ((step : Nat) : Int) * Int.tdiv RAND_MAX (STEPS - 1) ≤ INT_MAX) ∧
    (∀ step : Int, MixedMode.threshold RAND_MAX step = threshold RAND_MAX step) := by
  have hd : Int.tdiv RAND_MAX (STEPS - 1) = 214748364 := by decide
  have hlast : threshold RAND_MAX (STEPS - 1) = 2147483640 := by decide
  refine ⟨by decide, hlast, ?_, ?_, fun step => ?_, fun step => ?_, fun step => rfl⟩
  · rw [hlast]; decide
  · rw [hlast]; decide
  · have hs := step.isLt
    rw [threshold_eq _ (by omega) (by omega), threshold_eq _ (by omega) (by omega)]
    omega
  · have hs := step.isLt
    rw [threshold_eq _ (by omega) (by omega), hd]
    unfold INT_MAX
    omega

/-- C20: for all ints `a`, `b`, `c` in the column's value domain
`[0, RAND_MAX]`, `cmp` computes `a - b` without 32-bit overflow and is a valid
three-way comparison: negative iff `a < b`, zero iff `a = b`, positive iff
`a > b`; the sign of `cmp(a, b)` is the opposite of the sign of `cmp(b, a)`;
and `cmp` is transitive.  The `cmp` of `mixed-mode-conjunction.c` is the same
function. -/
theorem C20_cmp_three_way (a b c : Int) (ha : 0 ≤ a ∧ a ≤ RAND_MAX)
    (hb : 0 ≤ b ∧ b ≤ RAND_MAX) (hc : 0 ≤ c ∧ c ≤ RAND_MAX) :
    cmp a b = a - b ∧
    (INT_MIN ≤ a - b ∧ a - b ≤ INT_MAX) ∧
    (cmp a b < 0 ↔ a < b) ∧
    (cmp a b = 0 ↔ a = b) ∧
    (0 < cmp a b ↔ b < a) ∧
    Int.sign (cmp a b) = - Int.sign (cmp b a) ∧
    (cmp a b ≤ 0 → cmp b c ≤ 0 → cmp a c ≤ 0) ∧
    (cmp a b < 0 → cmp b c < 0 → cmp a c < 0) ∧
    (cmp a b = 0 → cmp b c = 0 → cmp a c = 0) ∧
    MixedMode.cmp a b = cmp a b := by
  obtain ⟨ha0, ha1⟩ := ha
  obtain ⟨hb0, hb1⟩ := hb
  obtain ⟨hc0, hc1⟩ := hc
  unfold RAND_MAX at ha1 hb1 hc1
  have hab : cmp a b = a - b := by unfold cmp wrap32; omega
  have hba : cmp b a = b - a := by unfold cmp wrap32; omega
  have hbc : cmp b c = b - c := by unfold cmp wrap32; omega
  have hac : cmp a c = a - c := by unfold cmp wrap32; omega
  rw [hab, hba, hbc, hac]
  refine ⟨rfl, ⟨by unfold INT_MIN; omega, by unfold INT_MAX; omega⟩, by omega, by omega,
    by omega, ?_, by omega, by omega, by omega, ?_⟩
  · rw [← Int.sign_neg]
    congr 1
    omega
  · exact hab

theorem C20_cmp_three_way_witness :
    cmp 0 RAND_MAX = 0 - RAND_MAX ∧ cmp 0 RAND_MAX < 0 ∧ 0 < cmp RAND_MAX 0 :=
  have h := C20_cmp_three_way 0 RAND_MAX 5 (by decide) (by decide) (by decide)
  have h' := C20_cmp_three_way RAND_MAX 0 5 (by decide) (by decide) (by decide)
  ⟨h.1, h.2.2.1.mpr (by decide), h'.2.2.2.2.1.mpr (by decide)⟩

/-! ### Which slots of `sv` the two loops write -/

theorem select_branchless_out_le (n : Nat) (col : Nat → Int) (v : Int) (sv : Nat → Int) :
    (select_branchless n col v sv).out ≤ n := by
  rw [(select_branchless_spec n col v sv).1]
  unfold qualifying
  exact (List.length_filter_le _ _).trans (by rw [List.length_range])

/-- The count never decreases from one iteration to a later one. -/
theorem select_branchless_out_mono (i n : Nat) (col : Nat → Int) (v : Int) (sv : Nat → Int)
    (h : i ≤ n) : (select_branchless i col v sv).out ≤ (select_branchless n col v sv).out := by
  induction n with
  | zero =>
    have e : i = 0 := by omega
    rw [e]
  | succ n ih =>
    by_cases hi : i = n + 1
    · rw [hi]
    · have h1 := ih (by omega)
      rw [select_branchless_succ]
      simp only [branchless_body]
      omega

/-- The branch-less loop leaves every slot above the final count untouched. -/
theorem select_branchless_frame (n : Nat) (col : Nat → Int) (v : Int) (sv : Nat → Int)
    (j : Nat) (hj : (select_branchless n col v sv).out < j) :
    (select_branchless n col v sv).sv j = sv j := by
  induction n with
  | zero => rw [select_branchless_zero]
  | succ n ih =>
    rw [select_branchless_succ] at hj ⊢
    simp only [branchless_body] at hj ⊢
    have hlt : (select_branchless n col v sv).out < j := by omega
    have hne : j ≠ (select_branchless n col v sv).out := by omega
    rw [Function.update_noteq hne]
    exact ih hlt

/-- The branch-based loop leaves every slot at or above the final count
untouched. -/
theorem select_branch_frame (n : Nat) (col : Nat → Int) (v : Int) (sv : Nat → Int)
    (j : Nat) (hj : (select_branch n col v sv).out ≤ j) :
    (select_branch n col v sv).sv j = sv j := by
  induction n with
  | zero => rw [select_branch_zero]
  | succ n ih =>
    rw [select_branch_succ] at hj ⊢
    by_cases h : col n < v
    · simp only [branch_body, if_pos h] at hj ⊢
      have hne : j ≠ (select_branch n col v sv).out := by omega
      rw [Function.update_noteq hne]
      exact ih (by omega)
    · simp only [branch_body, if_neg h] at hj ⊢
      exact ih hj

theorem scenario_qualifying_seven : qualifying scenario_col 4 7 = [0, 1, 3, 6] := by decide

/-- C16: for every column `col` of `n` elements, threshold `v` and initial
selection vector `sv`, with `c` the final count of the branch-less loop: the
branch-based loop ends with the same count; `sv[0..c-1]` is the same in both;
the branch-less loop leaves every slot `j > c` at its initial value and the
branch-based loop every slot `j ≥ c`; every write of the branch-less loop
targets a slot `≤ c`, and one that targets slot `c` happens at an iteration
`i < n` with `c ≤ i`, so only when `c < n`; hence the two final buffers agree
on every slot other than `c`, and on all slots when `c = n`.  On the column
`[3,1,4,1,5,9,2,6]` with `v = 4` and `sv` filled with `-1` the two buffers do
differ in slot `c = 4`, which holds the discarded candidate 7 in the
branch-less result. -/
theorem C16_branchless_differs_only_at_count :
    (∀ (n : Nat) (col : Nat → Int) (v : Int) (sv : Nat → Int),
      (select_branch n col v sv).out = (select_branchless n col v sv).out ∧
      (List.range (select_branchless n col v sv).out).map (select_branchless n col v sv).sv
        = (List.range (select_branchless n col v sv).out).map (select_branch n col v sv).sv ∧
      (∀ j, (select_branchless n col v sv).out < j →
        (select_branchless n col v sv).sv j = sv j) ∧
      (∀ j, (select_branchless n col v sv).out ≤ j → (select_branch n col v sv).sv j = sv j) ∧
      (∀ i, i < n →
        (branchless_body col v i (select_branchless i col v sv)).sv
          = Function.update (select_branchless i col v sv).sv
              (select_branchless i col v sv).out (i : Int) ∧
        (select_branchless i col v sv).out ≤ (select_branchless n col v sv).out ∧
        ((select_branchless i col v sv).out = (select_branchless n col v sv).out →
          (select_branchless n col v sv).out < n)) ∧
      (∀ j, j ≠ (select_branchless n col v sv).out →
        (select_branchless n col v sv).sv j = (select_branch n col v sv).sv j) ∧
      ((select_branchless n col v sv).out = n →
        (select_branchless n col v sv).sv = (select_branch n col v sv).sv)) ∧
    (select_branchless 8 scenario_col 4 (fun _ => -1)).out = 4 ∧
    (select_branchless 8 scenario_col 4 (fun _ => -1)).sv 4 = 7 ∧
    (select_branch 8 scenario_col 4 (fun _ => -1)).sv 4 = -1 := by
  have hpoint : ∀ (n : Nat) (col : Nat → Int) (v : Int) (sv : Nat → Int) (j : Nat),
      j ≠ (select_branchless n col v sv).out →
      (select_branchless n col v sv).sv j = (select_branch n col v sv).sv j := by
    intro n col v sv j hj
    obtain ⟨ho, hs⟩ := select_branchless_spec n col v sv
    obtain ⟨ho', hs'⟩ := select_branch_spec n col v sv
    have hout : (select_branch n col v sv).out = (select_branchless n col v sv).out :=
      ho'.trans ho.symm
    by_cases hlt : j < (select_branchless n col v sv).out
    · have hmap := hs.trans hs'.symm
      rw [hout] at hmap
      exact List.map_inj_left.mp hmap j (List.mem_range.mpr hlt)
    · rw [select_branchless_frame n col v sv j (by omega),
        select_branch_frame n col v sv j (by omega)]
  refine ⟨fun n col v sv => ?_, ?_, ?_, ?_⟩
  · obtain ⟨ho, hs⟩ := select_branchless_spec n col v sv
    obtain ⟨ho', hs'⟩ := select_branch_spec n col v sv
    have hout : (select_branch n col v sv).out = (select_branchless n col v sv).out :=
      ho'.trans ho.symm
    refine ⟨hout, ?_, fun j hj => select_branchless_frame n col v sv j hj,
      fun j hj => select_branch_frame n col v sv j (by omega), fun i hi => ⟨rfl, ?_, ?_⟩,
      hpoint n col v sv, fun hc => ?_⟩
    · have hmap := hs.trans hs'.symm
      rw [hout] at hmap
      exact hmap
    · exact select_branchless_out_mono i n col v sv (by omega)
    · intro he
      have hle := select_branchless_out_le i col v sv
      omega
    · funext j
      by_cases hj : j = (select_branchless n col v sv).out
      · rw [select_branch_frame n col v sv j (by omega)]
        have hlast : ∀ m, m ≤ n → (select_branchless m col v sv).out = m →
            (select_branchless m col v sv).sv j = sv j := by
          intro m
          induction m with
          | zero => intro _ _; rw [select_branchless_zero]
          | succ m ih =>
            intro hm hom
            have hle := select_branchless_out_le m col v sv
            rw [select_branchless_succ] at hom ⊢
            simp only [branchless_body] at hom ⊢
            have hb : b2n (decide (col m < v)) ≤ 1 := by
              unfold b2n; split <;> omega
            have hprev : (select_branchless m col v sv).out = m := by omega
            have hne : j ≠ (select_branchless m col v sv).out := by omega
            rw [Function.update_noteq hne]
            exact ih (by omega) hprev
        exact hlast n (le_refl n) hc
      · exact hpoint n col v sv j hj
  · rw [(select_branchless_spec 8 scenario_col 4 _).1, scenario_qualifying]
    rfl
  · have e8 : (8 : Nat) = 7 + 1 := rfl
    rw [e8, select_branchless_succ]
    simp only [branchless_body]
    have h7 : (select_branchless 7 scenario_col 4 (fun _ => -1)).out = 4 := by
      rw [(select_branchless_spec 7 scenario_col 4 _).1, scenario_qualifying_seven]
      rfl
    rw [h7, Function.update_same]
    rfl
  · have h8 : (select_branch 8 scenario_col 4 (fun _ => -1)).out ≤ 4 := by
      rw [(select_branch_spec 8 scenario_col 4 _).1, scenario_qualifying]
      exact le_refl _
    rw [select_branch_frame 8 scenario_col 4 _ 4 h8]

end BranchPrediction

namespace MixedMode

open C

/-! ### Lemmas on the three alternatives of `mixed-mode-conjunction.c` -/

/-- The C test `x % 2 == 0` (truncating remainder) holds exactly for even `x`. -/
theorem tmod_two_eq_zero_iff (x : Int) : Int.tmod x 2 = 0 ↔ x % 2 = 0 := by
  rw [← Int.dvd_iff_tmod_eq_zero]
  omega

theorem qualifying_values_succ (col : Nat → Int) (v : Int) (n : Nat) :
    qualifying_values col v (n + 1)
      = qualifying_values col v n ++ (if col n < v ∧ col n % 2 = 0 then [col n] else []) := by
  unfold qualifying_values
  rw [List.range_succ, List.map_append, List.filter_append]
  by_cases h : col n < v ∧ col n % 2 = 0
  · have hf : (decide (col n < v) && decide (col n % 2 = 0)) = true := by
      rw [Bool.and_eq_true, decide_eq_true_eq, decide_eq_true_eq]
      exact h
    rw [if_pos h, List.map_cons, List.map_nil, List.filter_cons_of_pos, List.filter_nil]
    exact hf
  · have hf : ¬ (decide (col n < v) && decide (col n % 2 = 0)) = true := by
      rw [Bool.and_eq_true, decide_eq_true_eq, decide_eq_true_eq]
      exact h
    rw [if_neg h, List.map_cons, List.map_nil, List.filter_cons_of_neg, List.filter_nil]
    exact hf

/-- One iteration keeps "`sv[0..out-1]` is the list `q`", with `q` extended by
`col[n]` exactly when `col[n]` qualifies: alternative A. -/
theorem body_A_spec (col : Nat → Int) (v : Int) (n : Nat) (s : SelState) (q : List Int)
    (ho : s.out = q.length) (hs : (List.range s.out).map s.sv = q) :
    (body_A col v n s).out
      = (q ++ (if col n < v ∧ col n % 2 = 0 then [col n] else [])).length ∧
    (List.range (body_A col v n s).out).map (body_A col v n s).sv
      = q ++ (if col n < v ∧ col n % 2 = 0 then [col n] else []) := by
  unfold body_A
  rw [b2n_land]
  by_cases h : col n < v ∧ col n % 2 = 0
  · have hb : b2n (decide (col n < v) && decide (Int.tmod (col n) 2 = 0)) = 1 := by
      have h2 := (tmod_two_eq_zero_iff (col n)).mpr h.2
      simp [b2n, h.1, h2]
    simp only [hb, if_pos h, List.length_append, List.length_singleton]
    exact ⟨by rw [ho], by rw [map_update_range_succ, hs]⟩
  · have hb : b2n (decide (col n < v) && decide (Int.tmod (col n) 2 = 0)) = 0 := by
      have h2 : ¬ (col n < v ∧ Int.tmod (col n) 2 = 0) := by
        rw [tmod_two_eq_zero_iff]; exact h
      simpa [b2n] using h2
    simp only [hb, if_neg h, List.append_nil, Nat.add_zero]
    exact ⟨ho, by rw [map_update_range, hs]⟩

/-- The same for alternative B. -/
theorem body_B_spec (col : Nat → Int) (v : Int) (n : Nat) (s : SelState) (q : List Int)
    (ho : s.out = q.length) (hs : (List.range s.out).map s.sv = q) :
    (body_B col v n s).out
      = (q ++ (if col n < v ∧ col n % 2 = 0 then [col n] else [])).length ∧
    (List.range (body_B col v n s).out).map (body_B col v n s).sv
      = q ++ (if col n < v ∧ col n % 2 = 0 then [col n] else []) := by
  unfold body_B
  by_cases h1 : col n < v
  · rw [if_pos h1]
    by_cases h2 : Int.tmod (col n) 2 = 0
    · have h : col n < v ∧ col n % 2 = 0 := ⟨h1, (tmod_two_eq_zero_iff _).mp h2⟩
      have hb : b2n (decide (Int.tmod (col n) 2 = 0)) = 1 := by simp [b2n, h2]
      simp only [hb, if_pos h, List.length_append, List.length_singleton]
      exact ⟨by rw [ho], by rw [map_update_range_succ, hs]⟩
    · have h : ¬ (col n < v ∧ col n % 2 = 0) := fun hh => h2 ((tmod_two_eq_zero_iff _).mpr hh.2)
      have hb : b2n (decide (Int.tmod (col n) 2 = 0)) = 0 := by simp [b2n, h2]
      simp only [hb, if_neg h, List.append_nil, Nat.add_zero]
      exact ⟨ho, by rw [map_update_range, hs]⟩
  · have h : ¬ (col n < v ∧ col n % 2 = 0) := fun hh => h1 hh.1
    rw [if_neg h1, if_neg h, List.append_nil]
    exact ⟨ho, hs⟩

/-- The same for alternative C. -/
theorem body_C_spec (col : Nat → Int) (v : Int) (n : Nat) (s : SelState) (q : List Int)
    (ho : s.out = q.length) (hs : (List.range s.out).map s.sv = q) :
    (body_C col v n s).out
      = (q ++ (if col n < v ∧ col n % 2 = 0 then [col n] else [])).length ∧
    (List.range (body_C col v n s).out).map (body_C col v n s).sv
      = q ++ (if col n < v ∧ col n % 2 = 0 then [col n] else []) := by
  unfold body_C
  by_cases h2 : Int.tmod (col n) 2 = 0
  · rw [if_pos h2]
    by_cases h1 : col n < v
    · have h : col n < v ∧ col n % 2 = 0 := ⟨h1, (tmod_two_eq_zero_iff _).mp h2⟩
      have hb : b2n (decide (col n < v)) = 1 := by simp [b2n, h1]
      simp only [hb, if_pos h, List.length_append, List.length_singleton]
      exact ⟨by rw [ho], by rw [map_update_range_succ, hs]⟩
    · have h : ¬ (col n < v ∧ col n % 2 = 0) := fun hh => h1 hh.1
      have hb : b2n (decide (col n < v)) = 0 := by simp [b2n, h1]
      simp only [hb, if_neg h, List.append_nil, Nat.add_zero]
      exact ⟨ho, by rw [map_update_range, hs]⟩
  · have h : ¬ (col n < v ∧ col n % 2 = 0) := fun hh => h2 ((tmod_two_eq_zero_iff _).mpr hh.2)
    rw [if_neg h2, if_neg h, List.append_nil]
    exact ⟨ho, hs⟩

/-- A loop whose body extends the selected prefix by the qualifying value ends
with the qualifying values of the whole column. -/
theorem selection_loop_spec (col : Nat → Int) (v : Int) (body : Nat → SelState → SelState)
    (hbody : ∀ (n : Nat) (s : SelState) (q : List Int), s.out = q.length →
      (List.range s.out).map s.sv = q →
      (body n s).out = (q ++ (if col n < v ∧ col n % 2 = 0 then [col n] else [])).length ∧
      (List.range (body n s).out).map (body n s).sv
        = q ++ (if col n < v ∧ col n % 2 = 0 then [col n] else []))
    (n : Nat) (sv : Nat → Int) :
    (for_loop n body 0 ⟨sv, 0⟩).out = (qualifying_values col v n).length ∧
    (List.range (for_loop n body 0 ⟨sv, 0⟩).out).map (for_loop n body 0 ⟨sv, 0⟩).sv
      = qualifying_values col v n := by
  induction n with
  | zero =>
    rw [for_loop_zero]
    exact ⟨rfl, rfl⟩
  | succ n ih =>
    rw [for_loop_succ, qualifying_values_succ]
    exact hbody n _ _ ih.1 ih.2

theorem alternative_A_spec (n : Nat) (col : Nat → Int) (v : Int) (sv : Nat → Int) :
    (alternative_A n col v sv).out = (qualifying_values col v n).length ∧
    (List.range (alternative_A n col v sv).out).map (alternative_A n col v sv).sv
      = qualifying_values col v n :=
  selection_loop_spec col v (body_A col v) (body_A_spec col v) n sv

theorem alternative_B_spec (n : Nat) (col : Nat → Int) (v : Int) (sv : Nat → Int) :
    (alternative_B n col v sv).out = (qualifying_values col v n).length ∧
    (List.range (alternative_B n col v sv).out).map (alternative_B n col v sv).sv
      = qualifying_values col v n :=
  selection_loop_spec col v (body_B col v) (body_B_spec col v) n sv

theorem alternative_C_spec (n : Nat) (col : Nat → Int) (v : Int) (sv : Nat → Int) :
    (alternative_C n col v sv).out = (qualifying_values col v n).length ∧
    (List.range (alternative_C n col v sv).out).map (alternative_C n col v sv).sv
      = qualifying_values col v n :=
  selection_loop_spec col v (body_C col v) (body_C_spec col v) n sv

theorem sample_qualifying_values : qualifying_values sample_col 5 8 = [-2, 4, 2] := by decide

/-! ### Claim on `mixed-mode-conjunction.c` -/

/-- C7: for every column `col` of `n` ints, every threshold `v` and every
initial content of the selection vector, alternatives A, B and C finish with
the same count `out`, equal to the number of elements that are both `< v` and
even, and with the same `sv[0..out-1]`, which holds exactly those qualifying
values in scan order.  On the sample column `[3,-2,4,1,8,9,2,-7]` with `v = 5`
the count is 3 and the values are -2, 4, 2. -/
theorem C7_alternatives_agree :
    (∀ (n : Nat) (col : Nat → Int) (v : Int) (svA svB svC : Nat → Int),
      (alternative_A n col v svA).out = (qualifying_values col v n).length ∧
      (alternative_B n col v svB).out = (alternative_A n col v svA).out ∧
      (alternative_C n col v svC).out = (alternative_A n col v svA).out ∧
      (List.range (alternative_A n col v svA).out).map (alternative_A n col v svA).sv
        = qualifying_values col v n ∧
      (List.range (alternative_B n col v svB).out).map (alternative_B n col v svB).sv
        = (List.range (alternative_A n col v svA).out).map (alternative_A n col v svA).sv ∧
      (List.range (alternative_C n col v svC).out).map (alternative_C n col v svC).sv
        = (List.range (alternative_A n col v svA).out).map (alternative_A n col v svA).sv) ∧
    (alternative_A 8 sample_col 5 (fun _ => 0)).out = 3 ∧
    (alternative_B 8 sample_col 5 (fun _ => 0)).out = 3 ∧
    (alternative_C 8 sample_col 5 (fun _ => 0)).out = 3 ∧
    (List.range 3).map (alternative_A 8 sample_col 5 (fun _ => 0)).sv = [-2, 4, 2] := by
  refine ⟨fun n col v svA svB svC => ?_, ?_, ?_, ?_, ?_⟩
  · obtain ⟨ha, hsa⟩ := alternative_A_spec n col v svA
    obtain ⟨hb, hsb⟩ := alternative_B_spec n col v svB
    obtain ⟨hc, hsc⟩ := alternative_C_spec n col v svC
    exact ⟨ha, hb.trans ha.symm, hc.trans ha.symm, hsa, hsb.trans hsa.symm, hsc.trans hsa.symm⟩
  · rw [(alternative_A_spec 8 sample_col 5 _).1, sample_qualifying_values]
    rfl
  · rw [(alternative_B_spec 8 sample_col 5 _).1, sample_qualifying_values]
    rfl
  · rw [(alternative_C_spec 8 sample_col 5 _).1, sample_qualifying_values]
    rfl
  · obtain ⟨ho, hs⟩ := alternative_A_spec 8 sample_col 5 (fun _ => 0)
    rw [sample_qualifying_values] at ho hs
    rw [ho] at hs
    have e : ([-2, 4, 2] : List Int).length = 3 := rfl
    rw [e] at hs
    exact hs

/-! ### The write index of the branch-less loops -/

theorem alternative_A_out_le (n : Nat) (col : Nat → Int) (v : Int) (sv : Nat → Int) :
    (alternative_A n col v sv).out ≤ n := by
  rw [(alternative_A_spec n col v sv).1]
  unfold qualifying_values
  exact (List.length_filter_le _ _).trans (by rw [List.length_map, List.length_range])

/-- C19: in the branch-less selection loop of `branch-prediction.c` and in
alternative A of `mixed-mode-conjunction.c`, at the start of every iteration
`i < n` of a run over `n` elements the counter satisfies `0 ≤ out ≤ i`, so the
unconditional write of that iteration, which targets `sv[out]`, hits an index
in `[0, n)`, also when every element qualifies (then `out = i`); and the final
count satisfies `0 ≤ out ≤ n`. -/
theorem C19_branchless_write_in_bounds (n : Nat) (col : Nat → Int) (v : Int)
    (sv : Nat → Int) (i : Nat) (hi : i < n) :
    (for_loop n (BranchPrediction.branchless_body col v) i
        (BranchPrediction.select_branchless i col v sv)
      = BranchPrediction.select_branchless n col v sv ∧
    (BranchPrediction.select_branchless i col v sv).out ≤ i ∧
    (BranchPrediction.branchless_body col v i
        (BranchPrediction.select_branchless i col v sv)).sv
      = Function.update (BranchPrediction.select_branchless i col v sv).sv
          (BranchPrediction.select_branchless i col v sv).out (i : Int) ∧
    (BranchPrediction.select_branchless i col v sv).out < n ∧
    ((∀ k, k < n → col k < v) → (BranchPrediction.select_branchless i col v sv).out = i) ∧
    (BranchPrediction.select_branchless n col v sv).out ≤ n) ∧
    (for_loop n (body_A col v) i (alternative_A i col v sv) = alternative_A n col v sv ∧
    (alternative_A i col v sv).out ≤ i ∧
    (body_A col v i (alternative_A i col v sv)).sv
      = Function.update (alternative_A i col v sv).sv (alternative_A i col v sv).out (col i) ∧
    (alternative_A i col v sv).out < n ∧
    (alternative_A n col v sv).out ≤ n) := by
  have h1 := BranchPrediction.select_branchless_out_le i col v sv
  have h2 := alternative_A_out_le i col v sv
  refine ⟨⟨for_loop_split n _ _ i (by omega), h1, rfl, by omega, fun hall => ?_,
    BranchPrediction.select_branchless_out_le n col v sv⟩,
    ⟨for_loop_split n _ _ i (by omega), h2, rfl, by omega, alternative_A_out_le n col v sv⟩⟩
  rw [(BranchPrediction.select_branchless_spec i col v sv).1,
    BranchPrediction.qualifying_all col v i (fun k hk => hall k (by omega)), List.length_range]

theorem C19_branchless_write_in_bounds_witness :
    (BranchPrediction.select_branchless 7 BranchPrediction.scenario_col 4 (fun _ => 0)).out < 8 ∧
    (alternative_A 7 sample_col 5 (fun _ => 0)).out < 8 :=
  have h := C19_branchless_write_in_bounds 8 BranchPrediction.scenario_col 4 (fun _ => 0) 7
    (by decide)
  have h' := C19_branchless_write_in_bounds 8 sample_col 5 (fun _ => 0) 7 (by decide)
  ⟨h.1.2.2.2.1, h'.2.2.2.2.1⟩

end MixedMode

namespace Prefetch

open C

/-! ### Lemmas on `bounce` and `prefetching_bounce` -/

theorem sum_over_snoc (vector : Nat → Int) (idxs : List Nat) (i : Nat) :
    sum_over vector (idxs ++ [i]) = wrap32 (sum_over vector idxs + vector i) := by
  unfold sum_over
  rw [List.foldl_append]
  rfl

/-- State of `bounce` after `n` iterations of its loop. -/
theorem bounce_loop_spec {σ : Type} (R : Rng σ) (size : Nat) (vector : Nat → Int) (n : Nat) :
    for_loop n (bounce_body R size vector) 0 ⟨0, R.srand 42, []⟩
      = ⟨sum_over vector ((List.range n).map (r_seq R size)), gen_after R n,
          (List.range n).map (r_seq R size)⟩ := by
  induction n with
  | zero =>
    rw [for_loop_zero]
    rfl
  | succ n ih =>
    rw [for_loop_succ, ih]
    simp only [bounce_body]
    rw [List.range_succ, List.map_append, List.map_cons, List.map_nil, sum_over_snoc]
    rfl

/-- State of `prefetching_bounce` after `m` iterations of the priming loop. -/
theorem prime_loop_spec {σ : Type} (R : Rng σ) (size : Nat) (loc0 : Nat → Nat) (m : Nat) :
    for_loop m (prime_body R size) 0 ⟨0, loc0, 0, R.srand 42, [], []⟩
      = ⟨0, fun j => if j < m then r_seq R size j else loc0 j, 0, gen_after R m, [], []⟩ := by
  induction m with
  | zero =>
    rw [for_loop_zero]
    rfl
  | succ m ih =>
    rw [for_loop_succ, ih]
    simp only [prime_body]
    have hloc : Function.update (fun j => if j < m then r_seq R size j else loc0 j) m
        ((R.rand (gen_after R m)).1 % size)
        = fun j => if j < m + 1 then r_seq R size j else loc0 j := by
      funext j
      by_cases hj : j = m
      · subst hj
        rw [Function.update_same, if_pos (by omega)]
        rfl
      · rw [Function.update_noteq hj]
        by_cases hlt : j < m
        · rw [if_pos hlt, if_pos (by omega)]
        · rw [if_neg hlt, if_neg (by omega)]
    rw [hloc]
    rfl

theorem state_after_succ {σ : Type} (R : Rng σ) (size lookahead : Nat) (vector : Nat → Int)
    (loc0 : Nat → Nat) (i : Nat) :
    state_after R size lookahead vector loc0 (i + 1)
      = prefetch_body R size lookahead vector i (state_after R size lookahead vector loc0 i) :=
  for_loop_succ _ _ _

/-- Two ring positions less than a full turn apart are different slots. -/
theorem ring_slot_ne (L i k : Nat) (h1 : i < k) (h2 : k < i + L) : k % L ≠ i % L := by
  intro h
  have hd : L ∣ k - i := (Nat.modEq_iff_dvd' (by omega)).mp h.symm
  have hle : L ≤ k - i := Nat.le_of_dvd (by omega) hd
  omega

/-- The loop invariant of the main loop of `prefetching_bounce`. -/
theorem state_after_spec {σ : Type} (R : Rng σ) (size lookahead : Nat) (vector : Nat → Int)
    (loc0 : Nat → Nat) (hL : 0 < lookahead) (i : Nat) :
    (state_after R size lookahead vector loc0 i).l = i % lookahead ∧
    (state_after R size lookahead vector loc0 i).gen = gen_after R (lookahead + i) ∧
    (∀ k, i ≤ k → k < i + lookahead →
      (state_after R size lookahead vector loc0 i).locations (k % lookahead) = r_seq R size k) ∧
    (state_after R size lookahead vector loc0 i).derefs = (List.range i).map (r_seq R size) ∧
    (state_after R size lookahead vector loc0 i).prefetched
      = (List.range i).map (fun k => r_seq R size (k + lookahead)) ∧
    (state_after R size lookahead vector loc0 i).sum
      = sum_over vector ((List.range i).map (r_seq R size)) := by
  induction i with
  | zero =>
    have e : state_after R size lookahead vector loc0 0
        = ⟨0, fun j => if j < lookahead then r_seq R size j else loc0 j, 0,
            gen_after R lookahead, [], []⟩ := by
      unfold state_after primed
      rw [for_loop_zero, prime_loop_spec]
    rw [e]
    refine ⟨(Nat.zero_mod _).symm, rfl, fun k _ hk => ?_, rfl, rfl, rfl⟩
    have hk' : k < lookahead := by omega
    simp only [Nat.mod_eq_of_lt hk', if_pos hk']
  | succ i ih =>
    obtain ⟨hl, hg, hloc, hd, hp, hs⟩ := ih
    rw [state_after_succ]
    simp only [prefetch_body]
    have hcur : (state_after R size lookahead vector loc0 i).locations
        (state_after R size lookahead vector loc0 i).l = r_seq R size i := by
      rw [hl]
      exact hloc i (by omega) (by omega)
    have hnew : (R.rand (state_after R size lookahead vector loc0 i).gen).1 % size
        = r_seq R size (i + lookahead) := by
      rw [hg, Nat.add_comm lookahead i]
      rfl
    refine ⟨?_, ?_, fun k hk1 hk2 => ?_, ?_, ?_, ?_⟩
    · rw [hl, Nat.mod_add_mod]
    · rw [hg]
      rfl
    · rw [hl, hnew]
      by_cases hk : k = i + lookahead
      · subst hk
        rw [Nat.add_mod_right, Function.update_same]
      · rw [Function.update_noteq (ring_slot_ne lookahead i k (by omega) (by omega))]
        exact hloc k (by omega) (by omega)
    · rw [hd, hcur, List.range_succ, List.map_append, List.map_cons, List.map_nil]
    · rw [hp, Function.update_same, hnew, List.range_succ, List.map_append, List.map_cons,
        List.map_nil]
    · rw [hs, hcur, List.range_succ, List.map_append, List.map_cons, List.map_nil,
        sum_over_snoc]

theorem bounce_eq {σ : Type} (R : Rng σ) (vector : Nat → Int) (entry : σ) :
    bounce R vector entry = bounce_sized R SIZE vector entry := rfl

theorem prefetching_bounce_eq {σ : Type} (R : Rng σ) (vector : Nat → Int) (loc0 : Nat → Nat)
    (entry : σ) :
    prefetching_bounce R vector loc0 entry
      = prefetching_bounce_sized R SIZE LOOKAHEAD vector loc0 entry := rfl

theorem prefetching_bounce_sized_eq {σ : Type} (R : Rng σ) (size lookahead : Nat)
    (vector : Nat → Int) (loc0 : Nat → Nat) (entry : σ) :
    prefetching_bounce_sized R size lookahead vector loc0 entry
      = state_after R size lookahead vector loc0 size := rfl

/-! ### Claims on `prefetch.c` -/

/-- C8: for every vector, every generator, every vector length `size` and every
prefetch distance `lookahead > 0` (the program has `SIZE = 32 * 1024 * 1024`
and `LOOKAHEAD = 128`), `prefetching_bounce` returns the same sum as `bounce`
and dereferences exactly the same index sequence `r_0, ..., r_(size-1)` in the
same order, whatever the initial content of the ring buffer and the generator
state at entry. -/
theorem C8_prefetching_bounce_eq_bounce {σ : Type} (R : Rng σ) (size lookahead : Nat)
    (hL : 0 < lookahead) (vector : Nat → Int) (loc0 : Nat → Nat) (entry entry' : σ) :
    (prefetching_bounce_sized R size lookahead vector loc0 entry).sum
      = (bounce_sized R size vector entry').sum ∧
    (prefetching_bounce_sized R size lookahead vector loc0 entry).derefs
      = (bounce_sized R size vector entry').derefs ∧
    (bounce_sized R size vector entry').derefs = (List.range size).map (r_seq R size) := by
  obtain ⟨_, _, _, hd, _, hs⟩ := state_after_spec R size lookahead vector loc0 hL size
  have hb : bounce_sized R size vector entry'
      = ⟨sum_over vector ((List.range size).map (r_seq R size)), gen_after R size,
          (List.range size).map (r_seq R size)⟩ := bounce_loop_spec R size vector size
  rw [prefetching_bounce_sized_eq, hb]
  exact ⟨hs, hd, rfl⟩

theorem C8_prefetching_bounce_eq_bounce_witness :
    (prefetching_bounce lcg (fun i => ((i % 10 : Nat) : Int)) (fun _ => 0) 0).sum
      = (bounce lcg (fun i => ((i % 10 : Nat) : Int)) 0).sum := by
  rw [prefetching_bounce_eq, bounce_eq]
  exact (C8_prefetching_bounce_eq_bounce lcg SIZE LOOKAHEAD (by decide)
    (fun i => ((i % 10 : Nat) : Int)) (fun _ => 0) 0 0).1

/-- C9: in `prefetching_bounce`, for every main-loop iteration `i < size`: the
state at the end of iteration `i` lies on the run of the function; the slot
consumed at iteration `i` is slot `i mod lookahead`; once it has been refilled,
the ring buffer holds exactly `r_(i+1) .. r_(i+lookahead)`, `r_(i+j)` in slot
`(i+j) mod lookahead`; these are the indices dereferenced at iterations
`i+1 .. i+lookahead` whenever those iterations exist; the refilled slot holds
`r_(i+lookahead)`; and the index prefetched at iteration `i` is
`r_(i+lookahead)`, the one dereferenced at iteration `i+lookahead` when that
iteration exists. -/
theorem C9_ring_buffer_invariant {σ : Type} (R : Rng σ) (size lookahead : Nat)
    (hL : 0 < lookahead) (vector : Nat → Int) (loc0 : Nat → Nat) (entry : σ)
    (i : Nat) (hi : i < size) :
    for_loop size (prefetch_body R size lookahead vector) (i + 1)
        (state_after R size lookahead vector loc0 (i + 1))
      = prefetching_bounce_sized R size lookahead vector loc0 entry ∧
    (state_after R size lookahead vector loc0 i).l = i % lookahead ∧
    (∀ j, 1 ≤ j → j ≤ lookahead →
      (state_after R size lookahead vector loc0 (i + 1)).locations ((i + j) % lookahead)
        = r_seq R size (i + j)) ∧
    (∀ j, 1 ≤ j → j ≤ lookahead → i + j < size →
      (prefetching_bounce_sized R size lookahead vector loc0 entry).derefs[i + j]?
        = some ((state_after R size lookahead vector loc0 (i + 1)).locations
            ((i + j) % lookahead))) ∧
    (state_after R size lookahead vector loc0 (i + 1)).locations (i % lookahead)
      = r_seq R size (i + lookahead) ∧
    (prefetching_bounce_sized R size lookahead vector loc0 entry).prefetched[i]?
      = some (r_seq R size (i + lookahead)) ∧
    (i + lookahead < size →
      (prefetching_bounce_sized R size lookahead vector loc0 entry).derefs[i + lookahead]?
        = (prefetching_bounce_sized R size lookahead vector loc0 entry).prefetched[i]?) := by
  obtain ⟨hl, _, _, _, _, _⟩ := state_after_spec R size lookahead vector loc0 hL i
  obtain ⟨_, _, hloc, _, _, _⟩ := state_after_spec R size lookahead vector loc0 hL (i + 1)
  obtain ⟨_, _, _, hd, hp, _⟩ := state_after_spec R size lookahead vector loc0 hL size
  have hwin : ∀ j, 1 ≤ j → j ≤ lookahead →
      (state_after R size lookahead vector loc0 (i + 1)).locations ((i + j) % lookahead)
        = r_seq R size (i + j) :=
    fun j h1 h2 => hloc (i + j) (by omega) (by omega)
  have hpre : (prefetching_bounce_sized R size lookahead vector loc0 entry).prefetched[i]?
      = some (r_seq R size (i + lookahead)) := by
    rw [prefetching_bounce_sized_eq, hp]
    exact getElem?_map_range _ size i hi
  refine ⟨?_, hl, hwin, fun j h1 h2 h3 => ?_, ?_, hpre, fun h => ?_⟩
  · rw [prefetching_bounce_sized_eq]
    exact for_loop_split size _ _ (i + 1) (by omega)
  · rw [hwin j h1 h2, prefetching_bounce_sized_eq, hd]
    exact getElem?_map_range _ size (i + j) h3
  · have h := hwin lookahead (by omega) (by omega)
    rw [Nat.add_mod_right] at h
    exact h
  · rw [hpre, prefetching_bounce_sized_eq, hd]
    exact getElem?_map_range _ size (i + lookahead) h

theorem C9_ring_buffer_invariant_witness :
    (state_after lcg SIZE LOOKAHEAD (fun i => ((i % 10 : Nat) : Int)) (fun _ => 0) 6).locations
        (5 % LOOKAHEAD) = r_seq lcg SIZE (5 + LOOKAHEAD) ∧
    (prefetching_bounce lcg (fun i => ((i % 10 : Nat) : Int)) (fun _ => 0) 0).prefetched[5]?
      = some (r_seq lcg SIZE (5 + LOOKAHEAD)) := by
  rw [prefetching_bounce_eq]
  have h := C9_ring_buffer_invariant lcg SIZE LOOKAHEAD (by decide)
    (fun i => ((i % 10 : Nat) : Int)) (fun _ => 0) 0 5 (by decide)
  exact ⟨h.2.2.2.2.1, h.2.2.2.2.2.1⟩

/-- C14: the index sequence of `bounce` is fully determined by the seed 42.
For every generator, every vector and all generator states `entry`, `entry'`
at entry, two calls of `bounce(vector)` end in the same state: they
dereference the same index sequence, which is `rand() % SIZE` of the first
`SIZE` values after `srand(42)`, and return the same sum; in particular a
second call entered with the generator state the first call left behind.  The
same holds for `prefetching_bounce`, whatever the initial contents `loc0`,
`loc0'` of its ring buffer. -/
theorem C14_bounce_deterministic {σ : Type} (R : Rng σ) (vector : Nat → Int)
    (loc0 loc0' : Nat → Nat) (entry entry' : σ) :
    bounce R vector entry = bounce R vector entry' ∧
    bounce R vector (bounce R vector entry).gen = bounce R vector entry ∧
    (bounce R vector entry).derefs = (List.range SIZE).map (r_seq R SIZE) ∧
    (bounce R vector entry).sum = sum_over vector ((List.range SIZE).map (r_seq R SIZE)) ∧
    (prefetching_bounce R vector loc0 entry).derefs
      = (prefetching_bounce R vector loc0' entry').derefs ∧
    (prefetching_bounce R vector loc0 entry).sum
      = (prefetching_bounce R vector loc0' entry').sum ∧
    (prefetching_bounce R vector loc0'
        (prefetching_bounce R vector loc0 entry).gen).derefs
      = (prefetching_bounce R vector loc0 entry).derefs ∧
    (prefetching_bounce R vector loc0'
        (prefetching_bounce R vector loc0 entry).gen).sum
      = (prefetching_bounce R vector loc0 entry).sum ∧
    (prefetching_bounce R vector loc0 entry).derefs = (List.range SIZE).map (r_seq R SIZE) ∧
    (prefetching_bounce R vector loc0 entry).sum
      = sum_over vector ((List.range SIZE).map (r_seq R SIZE)) := by
  have hL : 0 < LOOKAHEAD := by decide
  have hb : ∀ e : σ, bounce R vector e
      = ⟨sum_over vector ((List.range SIZE).map (r_seq R SIZE)), gen_after R SIZE,
          (List.range SIZE).map (r_seq R SIZE)⟩ := by
    intro e
    rw [bounce_eq]
    exact bounce_loop_spec R SIZE vector SIZE
  have hpd : ∀ (l0 : Nat → Nat) (e : σ), (prefetching_bounce R vector l0 e).derefs
      = (List.range SIZE).map (r_seq R SIZE) := by
    intro l0 e
    rw [prefetching_bounce_eq, prefetching_bounce_sized_eq]
    exact (state_after_spec R SIZE LOOKAHEAD vector l0 hL SIZE).2.2.2.1
  have hps : ∀ (l0 : Nat → Nat) (e : σ), (prefetching_bounce R vector l0 e).sum
      = sum_over vector ((List.range SIZE).map (r_seq R SIZE)) := by
    intro l0 e
    rw [prefetching_bounce_eq, prefetching_bounce_sized_eq]
    exact (state_after_spec R SIZE LOOKAHEAD vector l0 hL SIZE).2.2.2.2.2
  refine ⟨?_, ?_, ?_, ?_, ?_, ?_, ?_, ?_, hpd loc0 entry, hps loc0 entry⟩
  · rw [hb entry, hb entry']
  · rw [hb (bounce R vector entry).gen, hb entry]
  · rw [hb entry]
  · rw [hb entry]
  · rw [hpd loc0 entry, hpd loc0' entry']
  · rw [hps loc0 entry, hps loc0' entry']
  · rw [hpd loc0' _, hpd loc0 entry]
  · rw [hps loc0' _, hps loc0 entry]

end Prefetch

namespace Mmap

open C

/-! ### Claim on `mmap.c` -/

/-- A loop that appends one output row per iteration prints the rows
`0 .. n - 1` in order. -/
theorem print_loop_eq (f : Nat → Nat × Int) (n : Nat) :
    for_loop n (fun i printed => printed ++ [f i]) 0 [] = (List.range n).map f := by
  induction n with
  | zero =>
    rw [for_loop_zero]
    rfl
  | succ n ih =>
    rw [for_loop_succ, ih, List.range_succ, List.map_append, List.map_cons, List.map_nil]

theorem row_count_eq (size : Int) (h0 : 0 ≤ size) (hmax : size ≤ OFF_MAX) :
    row_count size = (size / 4).toNat := by
  unfold row_count
  unfold OFF_MAX at hmax
  have e : size % 18446744073709551616 = size := by omega
  rw [e]

/-- C15: for every mapped region of `size` bytes, `0 ≤ size ≤ OFF_MAX`,
`scan_tail(tail, size)` visits exactly `floor(size / 4)` rows, namely
`tail[0], tail[1], ..., tail[floor(size/4) - 1]` in index order, each reported
once with its row number; the trailing `size mod 4` bytes are ignored (the
output is that of the size rounded down to a multiple of 4). -/
theorem C15_scan_tail_rows (tail : Nat → Int) (size : Int) (h0 : 0 ≤ size)
    (hmax : size ≤ OFF_MAX) :
    scan_tail tail size = (List.range (size / 4).toNat).map (fun i => (i, tail i)) ∧
    (scan_tail tail size).length = (size / 4).toNat ∧
    (∀ i : Nat, i < (size / 4).toNat → (scan_tail tail size)[i]? = some (i, tail i)) ∧
    scan_tail tail size = scan_tail tail (size - size % 4) := by
  have hr : scan_tail tail size = (List.range (size / 4).toNat).map (fun i => (i, tail i)) := by
    unfold scan_tail
    rw [row_count_eq size h0 hmax]
    exact print_loop_eq _ _
  have hr' : scan_tail tail (size - size % 4)
      = (List.range (size / 4).toNat).map (fun i => (i, tail i)) := by
    unfold scan_tail
    rw [row_count_eq (size - size % 4) (by omega) (by omega)]
    have e : (size - size % 4) / 4 = size / 4 := by omega
    rw [e]
    exact print_loop_eq _ _
  refine ⟨hr, ?_, fun i hi => ?_, hr.trans hr'.symm⟩
  · rw [hr, List.length_map, List.length_range]
  · rw [hr]
    exact getElem?_map_range _ _ i hi

theorem C15_scan_tail_rows_witness :
    scan_tail sample_tail 16 = [(0, 10), (1, 20), (2, 30), (3, 40)] ∧
    (scan_tail sample_tail 16).length = 4 ∧
    scan_tail sample_tail 19 = scan_tail sample_tail 16 :=
  have h := C15_scan_tail_rows sample_tail 16 (by decide) (by decide)
  have h' := C15_scan_tail_rows sample_tail 19 (by decide) (by decide)
  ⟨h.1.trans (by decide), h.2.1.trans (by decide), h'.2.2.2⟩

end Mmap
